import Mathlib

/-!
Verification development for the invoice extraction tool (`invoice_data.py`).

The file shallowly embeds the pure computational content of the program:

* the JSON value model and a parser mirroring Python's `json.loads`
  (strict JSON grammar; numbers are modelled as exact rationals, whereas
  CPython uses binary floats; `NaN`/`Infinity` extensions are not modelled);
* the serializer mirroring `json.dump(data, f, indent=2, ensure_ascii=False)`;
* the markdown fence stripping and parse step of `extract_invoice_data`;
* filename derivation and the save/load pair of `save_extraction_result`
  and the results browser;
* the derived display values of `display_extracted_data` (Python dictionary
  access with defaults, `:.2f` formatting raising on non-numeric values);
* the results-directory listing (sort by modification time, newest first);
* the API-key gate of `setup_gemini`.

Effectful boundaries (the Gemini network call, Streamlit rendering, the file
system clock) are passed in as explicit parameters.
-/

/-- JSON values as built by Python's `json.loads`: objects keep insertion
order and are modelled as association lists (duplicate source keys are
collapsed the way `dict` does). Numbers are modelled as exact rationals. -/
inductive Json where
  | null
  | bool (b : Bool)
  | num (q : ℚ)
  | str (s : String)
  | arr (elems : List Json)
  | obj (fields : List (String × Json))

/-- The whitespace characters accepted by the JSON grammar (and skipped by
Python's `json` scanner between tokens). -/
def jsonWs (c : Char) : Bool :=
  c = ' ' || c = '\t' || c = '\n' || c = '\r'

/-- Drop leading JSON whitespace. -/
def skipWs : List Char → List Char
  | [] => []
  | c :: cs => if jsonWs c then skipWs cs else c :: cs

/-- Value of a hexadecimal digit, as accepted in `\uXXXX` escapes. -/
def hexVal (c : Char) : Option Nat :=
  if '0' ≤ c ∧ c ≤ '9' then some (c.toNat - '0'.toNat)
  else if 'a' ≤ c ∧ c ≤ 'f' then some (c.toNat - 'a'.toNat + 10)
  else if 'A' ≤ c ∧ c ≤ 'F' then some (c.toNat - 'A'.toNat + 10)
  else none

/-- Translation of a single-character escape (`\"`, `\\`, `\/`, `\b`, `\f`,
`\n`, `\r`, `\t`); anything else is an invalid escape. -/
def unescapeChar (c : Char) : Option Char :=
  if c = '"' then some '"'
  else if c = '\\' then some '\\'
  else if c = '/' then some '/'
  else if c = 'b' then some '\x08'
  else if c = 'f' then some '\x0c'
  else if c = 'n' then some '\n'
  else if c = 'r' then some '\r'
  else if c = 't' then some '\t'
  else none

/-- Body of a JSON string (the part after the opening quote), as scanned by
Python's `py_scanstring` in strict mode: raw control characters are rejected,
escapes are translated, and the closing quote ends the literal.  Returns the
decoded characters together with the input remaining after the closing
quote.  Lone-surrogate `\u` escapes (not representable as Lean `Char`s) are
mapped to the null scalar; no claim depends on them. -/
def parseStringBody : List Char → Option (List Char × List Char)
  | [] => none
  | c :: cs =>
    if c = '"' then some ([], cs)
    else if c = '\\' then
      match cs with
      | 'u' :: h1 :: h2 :: h3 :: h4 :: cs4 =>
        match hexVal h1, hexVal h2, hexVal h3, hexVal h4 with
        | some a, some b, some c3, some d =>
          (parseStringBody cs4).map
            (fun p => (Char.ofNat (((a * 16 + b) * 16 + c3) * 16 + d) :: p.1, p.2))
        | _, _, _, _ => none
      | e :: cs2 =>
        match unescapeChar e with
        | some u => (parseStringBody cs2).map (fun p => (u :: p.1, p.2))
        | none => none
      | [] => none
    else if c.toNat < 0x20 then none
    else (parseStringBody cs).map (fun p => (c :: p.1, p.2))

/-- Longest leading run of decimal digits. -/
def spanDigits : List Char → List Char × List Char
  | [] => ([], [])
  | c :: cs =>
    if c.isDigit then
      let p := spanDigits cs
      (c :: p.1, p.2)
    else ([], c :: cs)

/-- Numeric value of a digit string, most significant digit first. -/
def digitsToNat (ds : List Char) : Nat :=
  ds.foldl (fun a c => 10 * a + (c.toNat - '0'.toNat)) 0

/-- Integer part of a JSON number after the optional sign: either a single
`0` or a nonzero digit followed by further digits (the JSON grammar, as
enforced by Python's `NUMBER_RE`, forbids leading zeros). -/
def parseIntPart : List Char → Option (Nat × List Char)
  | [] => none
  | c :: cs =>
    if c = '0' then some (0, cs)
    else if c.isDigit then
      let p := spanDigits (c :: cs)
      some (digitsToNat p.1, p.2)
    else none

/-- Optional fraction part: consumed only when a `.` is directly followed by
at least one digit, exactly as in `NUMBER_RE` (`(\.\d+)?`).  Returns the
fraction numerator and the number of fraction digits. -/
def parseFracPart : List Char → (Nat × Nat) × List Char
  | [] => ((0, 0), [])
  | c :: cs =>
    if c = '.' then
      match spanDigits cs with
      | ([], _) => ((0, 0), c :: cs)
      | (ds, rest) => ((digitsToNat ds, ds.length), rest)
    else ((0, 0), c :: cs)

/-- Optional exponent part (`([eE][-+]?\d+)?`): consumed only when the
`e`/`E` (with optional sign) is followed by at least one digit. -/
def parseExpPart : List Char → (Bool × Nat) × List Char
  | c :: cs =>
    if c = 'e' ∨ c = 'E' then
      match cs with
      | s :: cs2 =>
        if s = '-' ∨ s = '+' then
          match spanDigits cs2 with
          | ([], _) => ((false, 0), c :: cs)
          | (ds, rest) => ((s = '-', digitsToNat ds), rest)
        else
          match spanDigits cs with
          | ([], _) => ((false, 0), c :: cs)
          | (ds, rest) => ((false, digitsToNat ds), rest)
      | [] => ((false, 0), [c])
    else ((false, 0), c :: cs)
  | [] => ((false, 0), [])

/-- Combine the pieces of a number literal into its exact rational value. -/
def numValue (neg : Bool) (ipart : Nat) (frac : Nat) (flen : Nat)
    (eneg : Bool) (e : Nat) : ℚ :=
  let base : ℚ := (ipart : ℚ) + (frac : ℚ) / (10 : ℚ) ^ flen
  let scaled : ℚ :=
    if e = 0 then base
    else if eneg then base / (10 : ℚ) ^ e else base * (10 : ℚ) ^ e
  if neg then -scaled else scaled

/-- A JSON number literal: optional `-`, integer part, optional fraction,
optional exponent, evaluated exactly over `ℚ`. -/
def parseNumber (cs : List Char) : Option (ℚ × List Char) :=
  match cs with
  | [] => none
  | c :: cs1 =>
    if c = '-' then
      match parseIntPart cs1 with
      | none => none
      | some (i, r1) =>
        match parseFracPart r1 with
        | ((f, fl), r2) =>
          match parseExpPart r2 with
          | ((en, e), r3) => some (numValue true i f fl en e, r3)
    else
      match parseIntPart (c :: cs1) with
      | none => none
      | some (i, r1) =>
        match parseFracPart r1 with
        | ((f, fl), r2) =>
          match parseExpPart r2 with
          | ((en, e), r3) => some (numValue false i f fl en e, r3)

/-- Python `dict` assignment `d[k] = v` on an insertion-ordered association
list: an existing key keeps its position and gets the new value, a new key
is appended. -/
def insertKV : List (String × Json) → String → Json → List (String × Json)
  | [], k, v => [(k, v)]
  | (k', v') :: rest, k, v =>
    if k' = k then (k, v) :: rest
    else (k', v') :: insertKV rest k v

/-- `dict(pairs)`: later duplicates win, first occurrence fixes position —
how Python's JSON object hook turns the scanned key/value list into a
dictionary. -/
def objFromPairs (pairs : List (String × Json)) : List (String × Json) :=
  pairs.foldl (fun acc p => insertKV acc p.1 p.2) []

/-- Fixed-keyword check, as in the scanner's `s[idx:idx + 4] == 'true'`
comparisons: consume the literal or fail. -/
def expectLit : List Char → List Char → Option (List Char)
  | [], cs => some cs
  | l :: ls, c :: cs => if c = l then expectLit ls cs else none
  | _ :: _, [] => none

/-- The tail of the literal `true`. -/
def juLit_rue : List Char := ['r', 'u', 'e']

/-- The tail of the literal `false`. -/
def juLit_alse : List Char := ['a', 'l', 's', 'e']

/-- The tail of the literal `null`. -/
def juLit_ull : List Char := ['u', 'l', 'l']

mutual

/-- One step of the recursive-descent JSON scanner (`_scan_once`): dispatch
on the first character without skipping whitespace (callers skip it), with a
fuel argument bounding the recursion depth.  `parseValue` returns the parsed
value and the unconsumed remainder. -/
def parseValue : Nat → List Char → Option (Json × List Char)
  | 0, _ => none
  | f + 1, cs =>
    match cs with
    | [] => none
    | c :: rest =>
      if c = '{' then
        match skipWs rest with
        | '}' :: r2 => some (Json.obj [], r2)
        | cs2 => (parseMembers f cs2).map (fun p => (Json.obj (objFromPairs p.1), p.2))
      else if c = '[' then
        match skipWs rest with
        | ']' :: r2 => some (Json.arr [], r2)
        | cs2 => (parseElems f cs2).map (fun p => (Json.arr p.1, p.2))
      else if c = '"' then
        (parseStringBody rest).map (fun p => (Json.str (String.mk p.1), p.2))
      else if c = 't' then
        match expectLit juLit_rue rest with
        | some r2 => some (Json.bool true, r2)
        | none => none
      else if c = 'f' then
        match expectLit juLit_alse rest with
        | some r2 => some (Json.bool false, r2)
        | none => none
      else if c = 'n' then
        match expectLit juLit_ull rest with
        | some r2 => some (Json.null, r2)
        | none => none
      else
        (parseNumber (c :: rest)).map (fun p => (Json.num p.1, p.2))

/-- Scan the element list of a non-empty JSON array; the input starts at the
first element (whitespace already skipped). -/
def parseElems : Nat → List Char → Option (List Json × List Char)
  | 0, _ => none
  | f + 1, cs =>
    match parseValue f cs with
    | none => none
    | some (v, r1) =>
      match skipWs r1 with
      | ',' :: r2 => (parseElems f (skipWs r2)).map (fun p => (v :: p.1, p.2))
      | ']' :: r2 => some ([v], r2)
      | _ => none

/-- Scan the member list of a non-empty JSON object; the input starts at the
first key (whitespace already skipped). -/
def parseMembers : Nat → List Char → Option (List (String × Json) × List Char)
  | 0, _ => none
  | f + 1, cs =>
    match cs with
    | '"' :: cs1 =>
      match parseStringBody cs1 with
      | none => none
      | some (k, r1) =>
        match skipWs r1 with
        | ':' :: r2 =>
          match parseValue f (skipWs r2) with
          | none => none
          | some (v, r3) =>
            match skipWs r3 with
            | ',' :: r4 =>
              (parseMembers f (skipWs r4)).map
                (fun p => ((String.mk k, v) :: p.1, p.2))
            | '}' :: r4 => some ([(String.mk k, v)], r4)
            | _ => none
        | _ => none
    | _ => none

end

/-- Python `json.loads`: skip leading whitespace, scan one value, require
only whitespace to follow ("Extra data" otherwise), "Expecting value" when
the scan fails.  The fuel `2 * length + 4` dominates the scanner's recursion
depth on any input. -/
def loadsL (cs : List Char) : Except String Json :=
  match parseValue (2 * cs.length + 4) (skipWs cs) with
  | some (v, rest) =>
    match skipWs rest with
    | [] => Except.ok v
    | _ => Except.error ("Extra data")
  | none => Except.error ("Expecting value")

/-- `json.loads` on a Lean string. -/
def loads (s : String) : Except String Json := loadsL s.toList

/-- The whitespace set of Python's `str.strip()` (ASCII part; the rarely
relevant non-ASCII Unicode spaces are not modelled). -/
def pyWs (c : Char) : Bool :=
  c = ' ' || c = '\t' || c = '\n' || c = '\r' || c = '\x0b' || c = '\x0c'

/-- Python `str.strip()`: drop leading and trailing whitespace. -/
def pyStrip (cs : List Char) : List Char :=
  ((cs.dropWhile pyWs).reverse.dropWhile pyWs).reverse

/-- Boolean prefix test on character lists (Python `str.startswith`). -/
def startsWithL : List Char → List Char → Bool
  | [], _ => true
  | _ :: _, [] => false
  | p :: ps, c :: cs => p = c && startsWithL ps cs

/-- Python `str.endswith`: the pattern is a suffix. -/
def endsWithL (p s : List Char) : Bool :=
  startsWithL p.reverse s.reverse

/-- Python slicing `s[:-n]`: drop the last `n` characters. -/
def dropRightL (n : Nat) (s : List Char) : List Char :=
  (s.reverse.drop n).reverse

/-- Lines 114-124 of `extract_invoice_data`: strip the raw response, peel a
leading markdown fence marker (7 characters when tagged with `json`, else 3
when a bare triple backtick), peel a trailing triple backtick, and strip
again before parsing. -/
def stripFences (cs : List Char) : List Char :=
  let t0 := pyStrip cs
  let t1 := if startsWithL ("```json".toList) t0 then t0.drop 7 else t0
  let t2 := if startsWithL ("```".toList) t1 then t1.drop 3 else t1
  let t3 := if endsWithL ("```".toList) t2 then dropRightL 3 t2 else t2
  pyStrip t3

/-- The response-normalization portion of `extract_invoice_data` (lines
113-125): fence stripping followed by `json.loads`; a decode failure is the
ParseError outcome. -/
def normalizeL (cs : List Char) : Except String Json :=
  loadsL (stripFences cs)

/-- `normalizeL` on a Lean string (the raw model response text); the name
`normalize` itself is taken by Mathlib. -/
def normalizeRaw (raw : String) : Except String Json :=
  normalizeL raw.toList

example : loads ("42") = Except.ok (Json.num 42) := by
  simp [loads, loadsL, parseValue, expectLit, juLit_rue, juLit_alse, juLit_ull, skipWs, jsonWs, parseNumber, parseIntPart,
    spanDigits, digitsToNat, parseFracPart, parseExpPart, numValue]

example : loads ("[1, 2]") = Except.ok (Json.arr [Json.num 1, Json.num 2]) := by
  simp [loads, loadsL, parseValue, expectLit, juLit_rue, juLit_alse, juLit_ull, parseElems, skipWs, jsonWs, parseNumber,
    parseIntPart, spanDigits, digitsToNat, parseFracPart, parseExpPart, numValue]

/-- Decimal digits of `n`, most significant first, accumulated with explicit
fuel (any fuel at least the digit count works; callers pass `n` itself). -/
def natToDigitsAux : Nat → Nat → List Char → List Char
  | 0, _, acc => acc
  | _ + 1, 0, acc => acc
  | f + 1, n, acc => natToDigitsAux f (n / 10) (Char.ofNat (48 + n % 10) :: acc)

/-- Canonical decimal digit string of a natural number (`repr` on a Python
`int`): no leading zeros, and `"0"` for zero. -/
def natToDigits (n : Nat) : List Char :=
  if n = 0 then ['0'] else natToDigitsAux n n []

/-- Multiplicity of the prime `p` in `n`, computed with explicit fuel. -/
def factorCountAux (p : Nat) : Nat → Nat → Nat
  | 0, _ => 0
  | f + 1, n =>
    if 2 ≤ p ∧ n ≠ 0 ∧ n % p = 0 then factorCountAux p f (n / p) + 1 else 0

/-- Multiplicity of `p` in `n` (fuel `n` always suffices). -/
def padic (p n : Nat) : Nat := factorCountAux p n n

/-- Pad a digit string with leading zeros up to width `k`. -/
def padLeftZeros (k : Nat) (ds : List Char) : List Char :=
  List.replicate (k - ds.length) '0' ++ ds

/-- Decimal rendering of a rational whose denominator divides a power of
ten — the only numbers Python's serializer can write (its `float` values are
always such).  `k` fraction digits are printed where `10 ^ k` clears the
denominator; integers print with no fraction part.  (CPython prints the
shortest `repr` of its binary float and may use exponent notation for huge
values; both spellings reparse to the same value, which is what the
round-trip claims observe.) -/
def renderNum (q : ℚ) : List Char :=
  let d := q.den
  let k := padic 2 d + padic 5 d
  let m := 10 ^ k / d
  let n := q.num.natAbs * m
  let sign : List Char := if q.num < 0 then ['-'] else []
  if k = 0 then sign ++ natToDigits n
  else sign ++ natToDigits (n / 10 ^ k) ++ '.' :: padLeftZeros k (natToDigits (n % 10 ^ k))

/-- Lowercase hexadecimal digit, as in Python's `\u00xx` escapes. -/
def hexDigitChar (n : Nat) : Char :=
  if n < 10 then Char.ofNat (48 + n) else Char.ofNat (87 + n)

/-- Escaping of one character by `json.dump` with `ensure_ascii=False`: only
`"`, `\` and control characters below `0x20` are escaped (named escapes
where they exist, `\u00xx` otherwise); everything else is written raw. -/
def escapeChar (c : Char) : List Char :=
  if c = '"' then ['\\', '"']
  else if c = '\\' then ['\\', '\\']
  else if c = '\n' then ['\\', 'n']
  else if c = '\t' then ['\\', 't']
  else if c = '\r' then ['\\', 'r']
  else if c = '\x08' then ['\\', 'b']
  else if c = '\x0c' then ['\\', 'f']
  else if c.toNat < 0x20 then
    ['\\', 'u', '0', '0', hexDigitChar (c.toNat / 16), hexDigitChar (c.toNat % 16)]
  else [c]

/-- A JSON string literal as written by the serializer. -/
def renderString (s : String) : List Char :=
  '"' :: (s.toList.map escapeChar).flatten ++ ['"']

/-- Indentation written at nesting depth `d` by `json.dump(..., indent=2)`. -/
def indentChars (d : Nat) : List Char :=
  List.replicate (2 * d) ' '

mutual

/-- `json.dump(data, f, indent=2, ensure_ascii=False)`: the exact character
stream written for a value at nesting depth `d`.  Non-empty containers put
every element on its own line, indent two spaces per level, separate items
with `,` and keys from values with `: `; empty containers print as `{}` and
`[]`. -/
def render : Json → Nat → List Char
  | .null, _ => ['n', 'u', 'l', 'l']
  | .bool true, _ => ['t', 'r', 'u', 'e']
  | .bool false, _ => ['f', 'a', 'l', 's', 'e']
  | .num q, _ => renderNum q
  | .str s, _ => renderString s
  | .arr [], _ => ['[', ']']
  | .arr (x :: xs), d =>
    '[' :: (renderItems x xs (d + 1) ++ '\n' :: (indentChars d ++ [']']))
  | .obj [], _ => ['{', '}']
  | .obj (m :: ms), d =>
    '{' :: (renderMembers m ms (d + 1) ++ '\n' :: (indentChars d ++ ['}']))
termination_by v _ => sizeOf v

/-- The rendered elements of a non-empty array, each preceded by a newline
and its indentation, separated by commas. -/
def renderItems : Json → List Json → Nat → List Char
  | x, [], d => '\n' :: (indentChars d ++ render x d)
  | x, y :: ys, d =>
    '\n' :: (indentChars d ++ render x d ++ ',' :: renderItems y ys d)
termination_by x xs _ => sizeOf x + sizeOf xs

/-- The rendered members of a non-empty object: newline, indentation,
quoted key, `: `, value, separated by commas. -/
def renderMembers : (String × Json) → List (String × Json) → Nat → List Char
  | (k, v), [], d =>
    '\n' :: (indentChars d ++ (renderString k ++ ':' :: ' ' :: render v d))
  | (k, v), m :: ms, d =>
    '\n' :: (indentChars d ++ (renderString k ++ ':' :: ' ' :: render v d ++
      ',' :: renderMembers m ms d))
termination_by m ms _ => sizeOf m + sizeOf ms

end

/-- The full file content written by `save_extraction_result` (the text of
`json.dump(data, f, indent=2, ensure_ascii=False)`). -/
def dumps (data : Json) : List Char :=
  render data 0

/-- The denominator of `q` divides a power of ten: exactly the rationals
with a finite decimal expansion, i.e. the values of Python floats and ints.
The chosen exponent also drives `renderNum`, so no further number theory is
needed to print such a number exactly. -/
def wfNum (q : ℚ) : Prop :=
  q.den ∣ 10 ^ (padic 2 q.den + padic 5 q.den)

mutual

/-- A value in the image of Python's `json.loads`: every number has a finite
decimal expansion and every object, being a `dict`, has pairwise distinct
keys. -/
def wfJson : Json → Prop
  | .null => True
  | .bool _ => True
  | .num q => wfNum q
  | .str _ => True
  | .arr xs => wfItems xs
  | .obj fs => (fs.map Prod.fst).Nodup ∧ wfFields fs

/-- All array elements are well-formed. -/
def wfItems : List Json → Prop
  | [] => True
  | x :: xs => wfJson x ∧ wfItems xs

/-- All object member values are well-formed. -/
def wfFields : List (String × Json) → Prop
  | [] => True
  | (_, v) :: fs => wfJson v ∧ wfFields fs

end

/-- First-match lookup in an insertion-ordered dictionary (no duplicate keys
ever arise from `dict`-built values). -/
def lookupKey : List (String × Json) → String → Option Json
  | [], _ => none
  | (k', v) :: rest, k => if k' = k then some v else lookupKey rest k

/-- Python `d.get(key, default)`.  The receiver must actually be a `dict`;
on any other value the attribute access raises, modelled as `none`. -/
def pyGet (d : Json) (k : String) (dflt : Json) : Option Json :=
  match d with
  | .obj fs => some ((lookupKey fs k).getD dflt)
  | _ => none

/-- Python truthiness of a parsed JSON value (`if data:`): `None`, `False`,
numeric zero, and empty strings/lists/dicts are falsy. -/
def pyTruthy : Json → Bool
  | .null => false
  | .bool b => b
  | .num q => decide (q ≠ 0)
  | .str s => !(s == "")
  | .arr xs => !xs.isEmpty
  | .obj fs => !fs.isEmpty

/-- Values accepted by numeric contexts (`sum`, `:.2f` formatting): numbers,
with Python `bool` counting as 0/1; everything else raises `TypeError`. -/
def jsonToNum : Json → Option ℚ
  | .num q => some q
  | .bool b => some (if b then 1 else 0)
  | _ => none

/-- Left-to-right accumulation of `sum(item.get('tax', 0) for item in ...)`:
a missing `tax` contributes the default `0`; a non-`dict` item or a
non-numeric `tax` value raises, modelled as `none`. -/
def sumTaxAux (acc : ℚ) : List Json → Option ℚ
  | [] => some acc
  | item :: rest =>
    match pyGet item ("tax") (Json.num 0) with
    | none => none
    | some t =>
      match jsonToNum t with
      | none => none
      | some x => sumTaxAux (acc + x) rest

/-- Line 187 of `display_extracted_data`: the derived total-tax display
value `sum(item.get('tax', 0) for item in data.get('line_items', []))`.
Iterating a non-list `line_items` value either raises immediately or
produces non-`dict` elements whose `.get` raises, so every non-list case is
the failure outcome. -/
def totalTaxDisplay (data : Json) : Option ℚ :=
  match pyGet data ("line_items") (Json.arr []) with
  | none => none
  | some (Json.arr items) => sumTaxAux 0 items
  | some _ => none

/-- Modelled from the spec (sections 4.4 and 8), for comparison with the
code's `totalTaxDisplay`: the sum of each line item's `tax` field with
missing or non-numeric taxes each contributing zero. -/
def specTaxSum : List Json → ℚ
  | [] => 0
  | item :: rest =>
    (match item with
     | .obj fs =>
       (match lookupKey fs ("tax") with
        | some (.num q) => q
        | _ => 0)
     | _ => 0) + specTaxSum rest

/-- A wall-clock timestamp as used by `datetime.now().strftime(...)`. -/
structure Timestamp where
  year : Nat
  month : Nat
  day : Nat
  hour : Nat
  minute : Nat
  second : Nat

/-- A number zero-padded to width `w` (`%m`, `%d`, ... fields). -/
def padNum (w n : Nat) : List Char :=
  padLeftZeros w (natToDigits n)

/-- `datetime.now().strftime("%Y%m%d_%H%M%S")`. -/
def strftimeYmdHMS (t : Timestamp) : List Char :=
  padNum 4 t.year ++ padNum 2 t.month ++ padNum 2 t.day ++ '_' ::
    (padNum 2 t.hour ++ padNum 2 t.minute ++ padNum 2 t.second)

/-- Python `s.replace("/", "_")` for the one-character pattern used on
the invoice number. -/
def replaceSlash (cs : List Char) : List Char :=
  cs.map (fun c => if c = '/' then '_' else c)

/-- Lines 138-141 of `save_extraction_result`: the derived file name
`f"invoice_{invoice_num}_{timestamp}.json"` where `invoice_num` is
`data.get("invoice_details", {}).get("invoice_number", "unknown")` with
`/` replaced by `_`.  `none` models the `AttributeError` raised when a
`.get` receiver is not a `dict` or when `.replace` is called on the
non-string (for example `None`) value stored under `invoice_number`. -/
def deriveFilename (data : Json) (t : Timestamp) : Option (List Char) :=
  match pyGet data ("invoice_details") (Json.obj []) with
  | none => none
  | some details =>
    match pyGet details ("invoice_number") (Json.str ("unknown")) with
    | none => none
    | some (Json.str s) =>
      some (("invoice_".toList) ++
        (replaceSlash s.toList ++ '_' :: (strftimeYmdHMS t ++ (".json".toList))))
    | some _ => none

/-- A file written into `results/`: its name and its exact text content. -/
structure SavedFile where
  name : List Char
  content : List Char

/-- `save_extraction_result(data, filename)` (lines 135-148): use the given
name or derive one, then write `json.dump(data, f, indent=2,
ensure_ascii=False)`.  `none` models the exception escaping from filename
derivation, in which case nothing is written. -/
def save_extraction_result (data : Json) (t : Timestamp)
    (filename : Option (List Char)) : Option SavedFile :=
  match filename with
  | some f => some { name := f, content := dumps data }
  | none => (deriveFilename data t).map (fun f => { name := f, content := dumps data })

/-- `json.load` on a stored file's content (tab 2, lines 282-283). -/
def loadSaved (file : SavedFile) : Except String Json :=
  loadsL file.content

/-- One rendering action of the display layer.  The Streamlit calls that
interpolate a value into an f-string cannot fail and are recorded with the
raw value; the `:.2f` metrics require a numeric value and appear only with
the number they format. -/
inductive DisplayAct where
  | subheader (title : String)
  | fieldOut (label : String) (value : Json)
  | textOut (label : String) (text : List Char)
  | metricOut (label : String) (value : ℚ)
  | tableRow (idx : Nat) (code : Json) (itemName : Json) (qty : Json)
      (unitPrice discount tax total : ℚ)

/-- The characters of a string value; `none` on any other value. -/
def asStringChars : Json → Option (List Char)
  | .str s => some s.toList
  | _ => none

/-- Comma-space join, as in `', '.join(contacts)`: accepts a list of
strings or a string (whose characters are the joined items); anything else
raises `TypeError`. -/
def joinContacts : Json → Option (List Char)
  | .arr xs =>
    (xs.mapM asStringChars).map
      (fun ss => (ss.intersperse (", ".toList)).flatten)
  | .str s =>
    some (((s.toList.map (fun c => [c])).intersperse (", ".toList)).flatten)
  | _ => none

/-- The rows of the line-items table (lines 195-206): each row formats the
monetary fields with `:.2f`, so a non-`dict` item or a non-numeric monetary
field raises, modelled as `none`. -/
def itemRows (idx : Nat) : List Json → Option (List DisplayAct)
  | [] => some []
  | item :: rest =>
    match pyGet item ("item_code") (Json.str ("N/A")),
          pyGet item ("item_name") (Json.str ("N/A")),
          pyGet item ("quantity") (Json.num 0),
          pyGet item ("unit_price") (Json.num 0),
          pyGet item ("discount") (Json.num 0),
          pyGet item ("tax") (Json.num 0),
          pyGet item ("item_total_amount") (Json.num 0) with
    | some code, some nameV, some qty, some up, some disc, some tax, some tot =>
      match jsonToNum up, jsonToNum disc, jsonToNum tax, jsonToNum tot with
      | some upQ, some discQ, some taxQ, some totQ =>
        (itemRows (idx + 1) rest).map
          (fun acts => DisplayAct.tableRow idx code nameV qty upQ discQ taxQ totQ :: acts)
      | _, _, _, _ => none
    | _, _, _, _, _, _, _ => none

/-- `display_extracted_data` (lines 151-208): `if not data: return` renders
nothing; otherwise the shop, invoice-details, financial-summary and
line-items sections are emitted in order.  `none` models an exception
escaping mid-render (defensive `.get` on a non-`dict`, `:.2f` or `join` on
an unsuitable value). -/
def display_extracted_data (data : Json) : Option (List DisplayAct) :=
  if pyTruthy data = false then some [] else
  match pyGet data ("shop_info") (Json.obj []) with
  | none => none
  | some shop =>
    match pyGet shop ("shop_name") (Json.str ("N/A")),
          pyGet shop ("shop_address") (Json.str ("N/A")),
          pyGet shop ("shop_contact_numbers") (Json.arr []),
          pyGet shop ("shop_email") Json.null with
    | some shopName, some shopAddr, some contacts, some email =>
      match (if pyTruthy contacts then (joinContacts contacts).map some else some none) with
      | none => none
      | some phoneLine =>
        match pyGet data ("invoice_details") (Json.obj []) with
        | none => none
        | some details =>
          match pyGet details ("invoice_number") (Json.str ("N/A")),
                pyGet details ("receipt_number") (Json.str ("N/A")),
                pyGet details ("invoice_date") (Json.str ("N/A")),
                pyGet details ("item_count") (Json.str ("N/A")),
                pyGet details ("invoice_subtotal") (Json.num 0),
                pyGet details ("invoice_total_discount") (Json.num 0),
                pyGet details ("invoice_total") (Json.num 0) with
          | some invNum, some rcptNum, some invDate, some itemCount,
              some subtotal, some discount, some total =>
            match jsonToNum subtotal, totalTaxDisplay data, jsonToNum total with
            | some subQ, some taxQ, some totQ =>
              match jsonToNum discount with
              | none => none
              | some discQ =>
                match pyGet data ("line_items") Json.null with
                | none => none
                | some itemsFlag =>
                  match (if pyTruthy itemsFlag then
                           match pyGet data ("line_items") (Json.arr []) with
                           | some (Json.arr items) => itemRows 1 items
                           | _ => none
                         else some []) with
                  | none => none
                  | some rows =>
                    some ([DisplayAct.subheader ("Shop Information"),
                           DisplayAct.fieldOut ("Name") shopName,
                           DisplayAct.fieldOut ("Address") shopAddr] ++
                          (match phoneLine with
                           | some line => [DisplayAct.textOut ("Phone") line]
                           | none => []) ++
                          (if pyTruthy email then [DisplayAct.fieldOut ("Email") email] else []) ++
                          [DisplayAct.subheader ("Invoice Details"),
                           DisplayAct.fieldOut ("Invoice #") invNum,
                           DisplayAct.fieldOut ("Receipt #") rcptNum,
                           DisplayAct.fieldOut ("Date") invDate,
                           DisplayAct.fieldOut ("Item Count") itemCount,
                           DisplayAct.subheader ("Financial Summary"),
                           DisplayAct.metricOut ("Subtotal") subQ,
                           DisplayAct.metricOut ("Total Discount") discQ,
                           DisplayAct.metricOut ("Total Tax") taxQ,
                           DisplayAct.metricOut ("TOTAL") totQ] ++
                          (if pyTruthy itemsFlag then
                             DisplayAct.subheader ("Line Items") :: rows
                           else []))
            | _, _, _ => none
          | _, _, _, _, _, _, _ => none
    | _, _, _, _ => none

/-- The `st.error` text of `setup_gemini` when the key is missing. -/
def configErrorMsg : String :=
  "Please set GEMINI_API_KEY in secrets or environment variables"

/-- `setup_gemini` (lines 24-31): read `GEMINI_API_KEY`; a missing or empty
(falsy) value reports the configuration error and stops the script run
(`none`); otherwise the configured client is available. -/
def setup_gemini (apiKey : Option String) : Option String :=
  match apiKey with
  | none => none
  | some k => if k = "" then none else some k

/-- What a run of `extract_invoice_data` leaves behind: the Python return
value (`None` on any failure) and the `st.error` texts shown, in order. -/
structure ExtractOutcome where
  value : Option Json
  reports : List String

/-- `extract_invoice_data` (lines 92-132), with the Gemini transport passed
in as a parameter: `Except.error e` is an exception out of the API call,
`Except.ok text` the raw response text.  When the key is missing,
`setup_gemini` shows the configuration error and raises `st.stop`'s
`StopException` inside the `try:`, which the `except Exception` arm catches
(the exception stringifies to the empty message) — so the service is never
consulted and `None` is returned.  A parse failure reports the decode error,
any other exception reports the extraction error; both return `None`. -/
def extract_invoice_data (apiKey : Option String)
    (service : Except String String) : ExtractOutcome :=
  match setup_gemini apiKey with
  | none =>
    { value := none, reports := [configErrorMsg, "Error extracting data: "] }
  | some _ =>
    match service with
    | Except.error e =>
      { value := none, reports := ["Error extracting data: " ++ e] }
    | Except.ok text =>
      match normalizeRaw text with
      | Except.ok v => { value := some v, reports := [] }
      | Except.error m =>
        { value := none, reports := ["Failed to parse JSON response: " ++ m] }

/-- What the Extract-Data button handler leaves behind. -/
structure HandlerOutcome where
  saved : Option SavedFile
  shown : Option (List DisplayAct)

/-- Lines 240-253: with a truthy extraction result the handler saves first
and then displays; a falsy or absent result does neither.  A failing save
raises before the display is reached. -/
def extractButton (extraction : Option Json) (t : Timestamp) : HandlerOutcome :=
  match extraction with
  | none => { saved := none, shown := none }
  | some r =>
    if pyTruthy r then
      match save_extraction_result r t none with
      | none => { saved := none, shown := none }
      | some file => { saved := some file, shown := display_extracted_data r }
    else { saved := none, shown := none }

/-- A directory entry of `results/` as the listing sees it. -/
structure FileEntry where
  name : List Char
  mtime : Nat

/-- The `glob("*.json")` name filter. -/
def isJsonName (f : FileEntry) : Bool :=
  endsWithL (".json".toList) f.name

/-- Lines 268-273 of tab 2: `glob("*.json")` then
`sort(key=lambda x: x.stat().st_mtime, reverse=True)` — the stored entries
ordered by modification time, newest first (modelled with a comparison
sort). -/
def listResults (files : List FileEntry) : List FileEntry :=
  List.insertionSort (fun a b => b.mtime ≤ a.mtime) (files.filter isJsonName)

instance : IsTotal FileEntry (fun a b => b.mtime ≤ a.mtime) :=
  ⟨fun a b => Nat.le_total b.mtime a.mtime⟩

instance : IsTrans FileEntry (fun a b => b.mtime ≤ a.mtime) :=
  ⟨fun _ _ _ hab hbc => le_trans hbc hab⟩

/-- The fence body: opening fence (tagged or bare) on its own line, the
document, then a closing fence line. -/
def fenceCore (tag : Bool) (doc : List Char) : List Char :=
  (if tag then ("```json".toList) else ("```".toList)) ++
    '\n' :: (doc ++ ('\n' :: ("```".toList)))

/-- A markdown-fenced JSON document with optional surrounding whitespace. -/
def fenceWrap (tag : Bool) (ws1 ws2 doc : List Char) : List Char :=
  ws1 ++ (fenceCore tag doc ++ ws2)

/-- Every character of `w` is JSON whitespace. -/
def wsList (w : List Char) : Prop :=
  ∀ c ∈ w, jsonWs c = true

/-- The next character (if any) cannot extend a number literal: this holds
after every token position at which the serializer can leave a number. -/
def notNumStart : List Char → Prop
  | [] => True
  | c :: _ => ¬(c.isDigit = true ∨ c = '.' ∨ c = 'e' ∨ c = 'E')

mutual

/-- Fuel measure dominating the scanner's recursion on a rendered value. -/
def sizeJ : Json → Nat
  | .null => 1
  | .bool _ => 1
  | .num _ => 1
  | .str _ => 1
  | .arr xs => 2 + sizeItems xs
  | .obj fs => 2 + sizeFields fs

/-- Fuel measure for an element list. -/
def sizeItems : List Json → Nat
  | [] => 0
  | x :: xs => sizeJ x + 1 + sizeItems xs

/-- Fuel measure for a member list. -/
def sizeFields : List (String × Json) → Nat
  | [] => 0
  | (_, v) :: ms => sizeJ v + 1 + sizeFields ms

end

/-- C9: when the API-key environment variable is absent (or empty, which
`if not api_key:` treats identically), `extract_invoice_data` reports the
configuration failure first, returns no value, and its outcome does not
depend on the inference service at all — no extraction call and no parsing
happens before the failure is reported. -/
theorem missing_api_key_blocks_extraction (s1 s2 : Except String String) :
    (extract_invoice_data none s1).value = none ∧
    (extract_invoice_data none s1).reports.head? = some configErrorMsg ∧
    extract_invoice_data none s1 = extract_invoice_data none s2 ∧
    (extract_invoice_data (some ("")) s1).value = none ∧
    (extract_invoice_data (some ("")) s1).reports.head? = some configErrorMsg ∧
    extract_invoice_data (some ("")) s1 = extract_invoice_data (some ("")) s2 := by
  refine ⟨rfl, rfl, rfl, ?_, ?_, ?_⟩ <;> simp [extract_invoice_data, setup_gemini]

/-- C10: a falsy extraction result (`None`, empty object, empty list, zero,
empty string, `False`) is treated like a failed extraction: the Extract-Data
handler neither saves nor displays anything, and `display_extracted_data`
returns immediately, rendering nothing. -/
theorem falsy_result_ignored (j : Json) (t : Timestamp)
    (h : pyTruthy j = false) :
    extractButton (some j) t = { saved := none, shown := none } ∧
    display_extracted_data j = some [] ∧
    extractButton none t = { saved := none, shown := none } := by
  refine ⟨?_, ?_, rfl⟩
  · simp [extractButton, h]
  · simp [display_extracted_data, h]

/-- Witness for C10 at the empty-object result and a fixed timestamp. -/
theorem falsy_result_ignored_witness :
    pyTruthy (Json.obj []) = false ∧
    extractButton (some (Json.obj [])) (Timestamp.mk 2024 1 1 0 0 0) =
      { saved := none, shown := none } ∧
    display_extracted_data (Json.obj []) = some [] :=
  ⟨rfl, (falsy_result_ignored (Json.obj []) (Timestamp.mk 2024 1 1 0 0 0) rfl).1,
    (falsy_result_ignored (Json.obj []) (Timestamp.mk 2024 1 1 0 0 0) rfl).2.1⟩

/-- C8: the results listing returns exactly the stored `*.json` entries of
the directory, ordered by modification time with the most recent first, and
is empty on an empty directory. -/
theorem listing_newest_first (files : List FileEntry) :
    List.Sorted (fun a b => b.mtime ≤ a.mtime) (listResults files) ∧
    List.Perm (listResults files) (files.filter isJsonName) ∧
    listResults [] = [] :=
  ⟨List.sorted_insertionSort _ _, List.perm_insertionSort _ _, rfl⟩

/-- C2: any input that is not valid JSON after fence stripping yields the
parse-error outcome — a distinct failure, never a silently substituted
value — and the application-level result is `None`; on the raw text
"not json" the decode error is "Expecting value". -/
theorem malformed_input_parse_error (raw : List Char) (m : String)
    (h : loadsL (stripFences raw) = Except.error m) :
    normalizeL raw = Except.error m ∧
    (∀ v : Json, normalizeL raw ≠ Except.ok v) ∧
    (∀ key : String, key ≠ "" →
      (extract_invoice_data (some key) (Except.ok (String.mk raw))).value = none) ∧
    normalizeRaw ("not json") = Except.error ("Expecting value") := by
  refine ⟨h, ?_, ?_, ?_⟩
  · intro v hv
    rw [show normalizeL raw = loadsL (stripFences raw) from rfl, h] at hv
    exact absurd hv (by simp)
  · intro key hk
    have htext : normalizeRaw (String.mk raw) = Except.error m := h
    simp [extract_invoice_data, setup_gemini, hk, htext]
  · simp [normalizeRaw, normalizeL, stripFences, pyStrip, pyWs, startsWithL,
      endsWithL, dropRightL, loadsL, parseValue, expectLit, juLit_rue, juLit_alse, juLit_ull, parseStringBody, skipWs, jsonWs,
      parseNumber, parseIntPart, spanDigits, digitsToNat, parseFracPart,
      parseExpPart, numValue, hexVal, unescapeChar]

/-- Witness for C2 at the raw text "not json". -/
theorem malformed_input_parse_error_witness :
    loadsL (stripFences ("not json".toList)) = Except.error ("Expecting value") ∧
    normalizeL ("not json".toList) = Except.error ("Expecting value") := by
  have h : loadsL (stripFences ("not json".toList)) = Except.error ("Expecting value") := by
    simp [stripFences, pyStrip, pyWs, startsWithL, endsWithL, dropRightL, loadsL,
      parseValue, expectLit, juLit_rue, juLit_alse, juLit_ull, parseStringBody, skipWs, jsonWs, parseNumber, parseIntPart,
      spanDigits, digitsToNat, parseFracPart, parseExpPart, numValue, hexVal,
      unescapeChar]
  exact ⟨h, (malformed_input_parse_error ("not json".toList) ("Expecting value") h).1⟩

/-- C7: a parse failure (service responded, text undecodable) and a
transport failure produce different user-visible reports — the former is
"Failed to parse JSON response: ...", the latter "Error extracting data:
...", and no report of the one kind ever coincides with one of the other. -/
theorem parse_error_distinct_from_service_error (key text e m : String)
    (hk : key ≠ "") (hp : normalizeRaw text = Except.error m) :
    (extract_invoice_data (some key) (Except.ok text)).reports =
      ["Failed to parse JSON response: " ++ m] ∧
    (extract_invoice_data (some key) (Except.error e)).reports =
      ["Error extracting data: " ++ e] ∧
    (∀ r1 ∈ (extract_invoice_data (some key) (Except.ok text)).reports,
      ∀ r2 ∈ (extract_invoice_data (some key) (Except.error e)).reports,
        r1 ≠ r2) := by
  have h1 : (extract_invoice_data (some key) (Except.ok text)).reports =
      ["Failed to parse JSON response: " ++ m] := by
    simp [extract_invoice_data, setup_gemini, hk, hp]
  have h2 : (extract_invoice_data (some key) (Except.error e)).reports =
      ["Error extracting data: " ++ e] := by
    simp [extract_invoice_data, setup_gemini, hk]
  refine ⟨h1, h2, ?_⟩
  intro r1 hr1 r2 hr2
  rw [h1] at hr1
  rw [h2] at hr2
  simp only [List.mem_singleton] at hr1 hr2
  subst hr1
  subst hr2
  intro hcontra
  have hd := congrArg (fun s : String => s.data.head?) hcontra
  simp only [String.data_append] at hd
  exact absurd hd (by simp [String.data])

/-- Witness for C7: key "k", undecodable response text "x", transport
exception text "boom". -/
theorem parse_error_distinct_witness :
    (("k" : String) ≠ "") ∧
    normalizeRaw ("x") = Except.error ("Expecting value") ∧
    (extract_invoice_data (some ("k")) (Except.ok ("x"))).reports =
      ["Failed to parse JSON response: " ++ "Expecting value"] ∧
    (∀ r1 ∈ (extract_invoice_data (some ("k")) (Except.ok ("x"))).reports,
      ∀ r2 ∈ (extract_invoice_data (some ("k")) (Except.error ("boom"))).reports,
        r1 ≠ r2) := by
  have hk : ("k" : String) ≠ "" := by simp
  have hp : normalizeRaw ("x") = Except.error ("Expecting value") := by
    simp [normalizeRaw, normalizeL, stripFences, pyStrip, pyWs, startsWithL,
      endsWithL, dropRightL, loadsL, parseValue, expectLit, juLit_rue, juLit_alse, juLit_ull, parseStringBody, skipWs, jsonWs,
      parseNumber, parseIntPart, spanDigits, digitsToNat, parseFracPart,
      parseExpPart, numValue, hexVal, unescapeChar]
  have h := parse_error_distinct_from_service_error ("k") ("x") ("boom")
    ("Expecting value") hk hp
  exact ⟨hk, hp, h.1, h.2.2⟩

/-- The character emitted for one decimal digit is a digit character. -/
theorem digitChar_isDigit (d : Nat) (h : d < 10) :
    (Char.ofNat (48 + d)).isDigit = true := by
  have h10 : d = 0 ∨ d = 1 ∨ d = 2 ∨ d = 3 ∨ d = 4 ∨ d = 5 ∨ d = 6 ∨ d = 7 ∨
      d = 8 ∨ d = 9 := by omega
  rcases h10 with rfl | rfl | rfl | rfl | rfl | rfl | rfl | rfl | rfl | rfl <;> decide

/-- Every character the digit accumulator emits is a digit (given the
accumulator already holds digits). -/
theorem natToDigitsAux_digits : ∀ (f n : Nat) (acc : List Char),
    (∀ c ∈ acc, c.isDigit = true) → ∀ c ∈ natToDigitsAux f n acc, c.isDigit = true := by
  intro f
  induction f with
  | zero => intro n acc hacc; simpa [natToDigitsAux] using hacc
  | succ f ih =>
    intro n acc hacc
    match n with
    | 0 => simpa [natToDigitsAux] using hacc
    | n + 1 =>
      rw [natToDigitsAux]
      · refine ih _ _ ?_
        intro c hc
        rcases List.mem_cons.mp hc with h | h
        · subst h; exact digitChar_isDigit _ (Nat.mod_lt _ (by omega))
        · exact hacc c h
      · omega

/-- Every character of a printed natural number is a digit. -/
theorem natToDigits_digits (n : Nat) : ∀ c ∈ natToDigits n, c.isDigit = true := by
  unfold natToDigits
  split
  · intro c hc; simp only [List.mem_singleton] at hc; subst hc; decide
  · exact natToDigitsAux_digits n n [] (by simp)

/-- A digit character is not a path separator. -/
theorem isDigit_ne_slash (c : Char) (h : c.isDigit = true) : c ≠ '/' := by
  intro he; subst he; exact absurd h (by decide)

/-- No character of a zero-padded number is a path separator. -/
theorem padNum_no_slash (w n : Nat) : ∀ c ∈ padNum w n, c ≠ '/' := by
  intro c hc
  rcases List.mem_append.mp hc with h | h
  · have := List.eq_of_mem_replicate h; subst this; decide
  · exact isDigit_ne_slash c (natToDigits_digits n c h)

/-- No character of the `%Y%m%d_%H%M%S` timestamp is a path separator. -/
theorem strftime_no_slash (t : Timestamp) : ∀ c ∈ strftimeYmdHMS t, c ≠ '/' := by
  intro c hc
  simp only [strftimeYmdHMS, List.mem_append, List.mem_cons] at hc
  rcases hc with ((h | h) | h) | h | (h | h) | h <;>
    first
      | (subst h; decide)
      | exact padNum_no_slash _ _ c h

/-- `replace("/", "_")` leaves no separator behind. -/
theorem replaceSlash_no_slash (l : List Char) : '/' ∉ replaceSlash l := by
  intro h
  obtain ⟨c, _, hc⟩ := List.mem_map.mp h
  by_cases hc' : c = '/'
  · rw [if_pos hc'] at hc; exact absurd hc (by decide)
  · rw [if_neg hc'] at hc; exact hc' hc

/-- C5: whenever `save_extraction_result` derives a file name, that name
contains no path separator — even when `invoice_number` itself contains
`/` — and it has the shape
`invoice_<number-or-placeholder>_<YYYYMMDD_HHMMSS>.json`. -/
theorem derived_filename_single_segment (data : Json) (t : Timestamp)
    (name : List Char) (h : deriveFilename data t = some name) :
    '/' ∉ name ∧
    ∃ core, name =
        ("invoice_".toList) ++ (core ++ '_' :: (strftimeYmdHMS t ++ (".json".toList))) ∧
      '/' ∉ core := by
  unfold deriveFilename at h
  split at h
  · exact absurd h (by simp)
  · split at h
    · exact absurd h (by simp)
    · rename_i s heq
      have hname := (Option.some.injEq _ _).mp h
      subst hname
      constructor
      · intro hmem
        rcases List.mem_append.mp hmem with hl | hr
        · exact absurd hl (by decide)
        · rcases List.mem_append.mp hr with hl2 | hr2
          · exact replaceSlash_no_slash _ hl2
          · rcases List.mem_cons.mp hr2 with he | hr3
            · exact absurd he (by decide)
            · rcases List.mem_append.mp hr3 with hl4 | hr4
              · exact strftime_no_slash t _ hl4 rfl
              · exact absurd hr4 (by decide)
      · exact ⟨replaceSlash s.toList, rfl, fun hx => replaceSlash_no_slash _ hx⟩
    · exact absurd h (by simp)

/-- Witness for C5: the invoice number "INV/2024/01" yields the separator-free
name `invoice_INV_2024_01_20240101_123005.json`. -/
theorem derived_filename_single_segment_witness :
    deriveFilename
        (Json.obj [("invoice_details",
          Json.obj [("invoice_number", Json.str ("INV/2024/01"))])])
        (Timestamp.mk 2024 1 1 12 30 5) =
      some ("invoice_INV_2024_01_20240101_123005.json".toList) ∧
    '/' ∉ ("invoice_INV_2024_01_20240101_123005.json".toList) := by
  have h : deriveFilename
      (Json.obj [("invoice_details",
        Json.obj [("invoice_number", Json.str ("INV/2024/01"))])])
      (Timestamp.mk 2024 1 1 12 30 5) =
    some ("invoice_INV_2024_01_20240101_123005.json".toList) := by decide
  exact ⟨h, (derived_filename_single_segment _ _ _ h).1⟩

/-- C6 counterexample: with `invoice_number` present but `null` (which the
schema allows and the extraction prompt even mandates for absent fields),
`save_extraction_result` does not succeed: `None.replace` raises an
`AttributeError`, so no file name is derived and nothing is saved. -/
theorem null_invoice_number_save_fails :
    save_extraction_result
        (Json.obj [("invoice_details", Json.obj [("invoice_number", Json.null)])])
        (Timestamp.mk 2024 1 1 0 0 0) none = none := rfl

/-- C6 amended: when `invoice_details.invoice_number` is genuinely absent
(the key is missing, or `invoice_details` itself is missing), the derived
name uses the fixed placeholder `unknown`; when the field is present but
`null` the derivation raises instead (see the counterexample). -/
theorem missing_invoice_number_uses_placeholder
    (fs gs : List (String × Json)) (t : Timestamp)
    (h : lookupKey fs ("invoice_details") = none ∨
         (lookupKey fs ("invoice_details") = some (Json.obj gs) ∧
          lookupKey gs ("invoice_number") = none)) :
    deriveFilename (Json.obj fs) t =
      some (("invoice_unknown_".toList) ++ (strftimeYmdHMS t ++ (".json".toList))) ∧
    save_extraction_result (Json.obj fs) t none =
      some { name := ("invoice_unknown_".toList) ++ (strftimeYmdHMS t ++ (".json".toList)),
             content := dumps (Json.obj fs) } := by
  have hd : deriveFilename (Json.obj fs) t =
      some (("invoice_unknown_".toList) ++ (strftimeYmdHMS t ++ (".json".toList))) := by
    rcases h with h1 | ⟨h1, h2⟩
    · simp only [deriveFilename, pyGet, h1, Option.getD]
      rfl
    · simp only [deriveFilename, pyGet, h1, h2, Option.getD]
      rfl
  exact ⟨hd, by simp [save_extraction_result, hd]⟩

/-- Witness for the amended C6: an empty result object derives the
placeholder name. -/
theorem missing_invoice_number_witness :
    deriveFilename (Json.obj []) (Timestamp.mk 2024 1 1 0 0 0) =
      some (("invoice_unknown_".toList) ++
        (strftimeYmdHMS (Timestamp.mk 2024 1 1 0 0 0) ++ (".json".toList))) :=
  (missing_invoice_number_uses_placeholder [] [] (Timestamp.mk 2024 1 1 0 0 0)
    (Or.inl rfl)).1

/-- When every line item is an object whose `tax`, if present, is a number,
the display accumulator computes the spec's sum (missing taxes count as
zero). -/
theorem sumTaxAux_ok : ∀ (items : List Json) (acc : ℚ),
    (∀ item ∈ items, ∃ fs, item = Json.obj fs ∧
      (lookupKey fs ("tax") = none ∨ ∃ q, lookupKey fs ("tax") = some (Json.num q))) →
    sumTaxAux acc items = some (acc + specTaxSum items) := by
  intro items
  induction items with
  | nil => intro acc _; simp [sumTaxAux, specTaxSum]
  | cons item rest ih =>
    intro acc h
    obtain ⟨fs, rfl, hcase⟩ := h _ (List.mem_cons_self _ _)
    have hrest := fun i hi => h i (List.mem_cons_of_mem _ hi)
    rcases hcase with hnone | ⟨q, hq⟩
    · rw [show sumTaxAux acc (Json.obj fs :: rest) = sumTaxAux (acc + 0) rest by
        simp [sumTaxAux, pyGet, hnone, jsonToNum]]
      rw [ih _ hrest]
      simp [specTaxSum, hnone]
    · rw [show sumTaxAux acc (Json.obj fs :: rest) = sumTaxAux (acc + q) rest by
        simp [sumTaxAux, pyGet, hq, jsonToNum]]
      rw [ih _ hrest]
      simp [specTaxSum, hq, add_assoc]

/-- C4 (amended): the derived total-tax display value equals the sum of the
line items' `tax` fields with a missing `tax` contributing zero — for any
item list, including the empty one — provided each item is an object whose
`tax`, when present, is numeric.  (When a `tax` is present but non-numeric
the display computation raises a `TypeError` instead of contributing zero;
see the counterexample.)  The sum is derived for display only: whatever is
persisted is exactly the serialization of the stored result itself. -/
theorem total_tax_display_sum (data : Json) (items : List Json)
    (hli : pyGet data ("line_items") (Json.arr []) = some (Json.arr items))
    (hok : ∀ item ∈ items, ∃ fs, item = Json.obj fs ∧
      (lookupKey fs ("tax") = none ∨ ∃ q, lookupKey fs ("tax") = some (Json.num q))) :
    totalTaxDisplay data = some (specTaxSum items) ∧
    totalTaxDisplay (Json.obj [("line_items", Json.arr [])]) = some 0 ∧
    (∀ t fn sf, save_extraction_result data t fn = some sf → sf.content = dumps data) := by
  refine ⟨?_, rfl, ?_⟩
  · rw [show totalTaxDisplay data = sumTaxAux 0 items by simp [totalTaxDisplay, hli]]
    rw [sumTaxAux_ok items 0 hok]
    simp
  · intro t fn sf hsf
    match fn with
    | some f =>
      simp only [save_extraction_result, Option.some.injEq] at hsf
      rw [← hsf]
    | none =>
      simp only [save_extraction_result] at hsf
      match hd : deriveFilename data t with
      | none => rw [hd] at hsf; exact absurd hsf (by simp)
      | some f =>
        rw [hd] at hsf
        simp only [Option.map_some', Option.some.injEq] at hsf
        rw [← hsf]

/-- C4 counterexample: a line item whose `tax` is the string "5" does not
contribute zero — the display computation fails (`TypeError`), while the
spec's reading of the sum is zero. -/
theorem total_tax_nonnumeric_raises :
    totalTaxDisplay
        (Json.obj [("line_items", Json.arr [Json.obj [("tax", Json.str ("5"))]])]) =
      none ∧
    specTaxSum [Json.obj [("tax", Json.str ("5"))]] = 0 := by
  refine ⟨rfl, ?_⟩
  simp [specTaxSum, lookupKey]

/-- Witness for the amended C4: two items, one with `tax` 3 and one without
a `tax` field, sum to the spec's value. -/
theorem total_tax_display_sum_witness :
    totalTaxDisplay
        (Json.obj [("line_items",
          Json.arr [Json.obj [("tax", Json.num 3)], Json.obj []])]) =
      some (specTaxSum [Json.obj [("tax", Json.num 3)], Json.obj []]) :=
  (total_tax_display_sum
    (Json.obj [("line_items",
      Json.arr [Json.obj [("tax", Json.num 3)], Json.obj []])])
    [Json.obj [("tax", Json.num 3)], Json.obj []] rfl
    (by
      intro item hi
      rcases List.mem_cons.mp hi with rfl | hi2
      · exact ⟨_, rfl, Or.inr ⟨3, rfl⟩⟩
      · rcases List.mem_cons.mp hi2 with rfl | hi3
        · exact ⟨[], rfl, Or.inl rfl⟩
        · exact absurd hi3 (by simp))).1

/-- Dropping while a predicate holds ignores a prefix on which it holds. -/
theorem dropWhile_all_append (p : Char → Bool) (w s : List Char)
    (hw : ∀ c ∈ w, p c = true) : (w ++ s).dropWhile p = s.dropWhile p := by
  induction w with
  | nil => rfl
  | cons c cs ih =>
    simp only [List.cons_append, List.dropWhile_cons, hw c (List.mem_cons_self c cs),
      if_true]
    exact ih (fun c h => hw c (List.mem_cons_of_mem _ h))

/-- Python `strip` ignores whitespace-only material on either side. -/
theorem pyStrip_sandwich (w1 w2 s : List Char)
    (h1 : ∀ c ∈ w1, pyWs c = true) (h2 : ∀ c ∈ w2, pyWs c = true) :
    pyStrip (w1 ++ (s ++ w2)) = pyStrip s := by
  unfold pyStrip
  rw [dropWhile_all_append pyWs w1 (s ++ w2) h1]
  induction s with
  | nil =>
    have hw2 : w2.dropWhile pyWs = [] := List.dropWhile_eq_nil_iff.mpr h2
    simp [hw2]
  | cons c s' ih =>
    by_cases hc : pyWs c = true
    · simpa [List.dropWhile_cons, hc] using ih
    · simp only [List.cons_append, List.dropWhile_cons, hc, if_false,
        Bool.false_eq_true, List.reverse_cons]
      rw [List.reverse_append, List.append_assoc,
        dropWhile_all_append pyWs w2.reverse (s'.reverse ++ [c])
          (fun x hx => h2 x (List.mem_reverse.mp hx))]

/-- `strip` is the identity on text with non-whitespace first and last
characters. -/
theorem pyStrip_eq_self (a b : Char) (mid : List Char)
    (ha : pyWs a = false) (hb : pyWs b = false) :
    pyStrip (a :: (mid ++ [b])) = a :: (mid ++ [b]) := by
  unfold pyStrip
  rw [List.dropWhile_cons_of_neg (by simp [ha])]
  rw [show (a :: (mid ++ [b])).reverse = b :: (mid.reverse ++ [a]) by simp]
  rw [List.dropWhile_cons_of_neg (by simp [hb])]
  simp

/-- A list starts with itself followed by anything. -/
theorem startsWithL_append (p r : List Char) : startsWithL p (p ++ r) = true := by
  induction p with
  | nil => rfl
  | cons c cs ih => simp [startsWithL, ih]

/-- A list ends with a suffix appended to anything. -/
theorem endsWithL_append (w p : List Char) : endsWithL p (w ++ p) = true := by
  unfold endsWithL
  rw [List.reverse_append]
  exact startsWithL_append p.reverse w.reverse

/-- Dropping a suffix's length from the right removes exactly it. -/
theorem dropRightL_append (w p : List Char) : dropRightL p.length (w ++ p) = w := by
  unfold dropRightL
  rw [List.reverse_append,
    show p.length = p.reverse.length by simp, List.drop_left, List.reverse_reverse]

/-- The fence body starts and ends with a backtick. -/
theorem fenceCore_shape (tag : Bool) (doc : List Char) :
    ∃ mid, fenceCore tag doc = '`' :: (mid ++ ['`']) := by
  cases tag
  · refine ⟨'`' :: '`' :: '\n' :: (doc ++ ['\n', '`', '`']), ?_⟩
    simp [fenceCore]
  · refine ⟨'`' :: '`' :: 'j' :: 's' :: 'o' :: 'n' :: '\n' :: (doc ++ ['\n', '`', '`']), ?_⟩
    simp [fenceCore]

/-- Stripping the fences from a fence-wrapped document recovers exactly the
document (when the document carries no surrounding whitespace of its own —
that whitespace is the wrapper's). -/
theorem stripFences_fenceWrap (tag : Bool) (ws1 ws2 doc : List Char)
    (h1 : ∀ c ∈ ws1, pyWs c = true) (h2 : ∀ c ∈ ws2, pyWs c = true)
    (hdoc : pyStrip doc = doc) :
    stripFences (fenceWrap tag ws1 ws2 doc) = doc := by
  have ht0 : pyStrip (fenceWrap tag ws1 ws2 doc) = fenceCore tag doc := by
    unfold fenceWrap
    rw [pyStrip_sandwich ws1 ws2 _ h1 h2]
    obtain ⟨mid, hm⟩ := fenceCore_shape tag doc
    rw [hm]
    exact pyStrip_eq_self '`' '`' mid (by decide) (by decide)
  have hdoc' : pyStrip ('\n' :: (doc ++ ['\n'])) = doc := by
    rw [show ('\n' :: (doc ++ ['\n'])) = ['\n'] ++ (doc ++ ['\n']) from rfl,
      pyStrip_sandwich ['\n'] ['\n'] doc (by decide) (by decide), hdoc]
  unfold stripFences
  dsimp only
  rw [ht0]
  cases tag
  · have hs1 : startsWithL ("```json".toList) (fenceCore false doc) = false := by
      simp [fenceCore, startsWithL]
    have hs2 : fenceCore false doc = ("```".toList) ++ ('\n' :: (doc ++ ('\n' :: ("```".toList)))) := by
      simp [fenceCore]
    rw [hs1]
    simp only [Bool.false_eq_true, if_false]
    rw [hs2, startsWithL_append, if_pos rfl,
      show (("```".toList) ++ ('\n' :: (doc ++ ('\n' :: ("```".toList))))).drop 3 =
        '\n' :: (doc ++ ('\n' :: ("```".toList))) from rfl]
    rw [show '\n' :: (doc ++ ('\n' :: ("```".toList))) =
      ('\n' :: (doc ++ ['\n'])) ++ ("```".toList) by simp]
    rw [endsWithL_append, if_pos rfl,
      show (3 : Nat) = ("```".toList).length from rfl, dropRightL_append]
    exact hdoc'
  · have hs1 : fenceCore true doc = ("```json".toList) ++ ('\n' :: (doc ++ ('\n' :: ("```".toList)))) := by
      simp [fenceCore]
    rw [hs1, startsWithL_append, if_pos rfl,
      show ((("```json".toList) ++ ('\n' :: (doc ++ ('\n' :: ("```".toList)))))).drop 7 =
        '\n' :: (doc ++ ('\n' :: ("```".toList))) from rfl]
    have hs3 : startsWithL ("```".toList) ('\n' :: (doc ++ ('\n' :: ("```".toList)))) = false := by
      simp [startsWithL]
    rw [hs3]
    simp only [Bool.false_eq_true, if_false]
    rw [show '\n' :: (doc ++ ('\n' :: ("```".toList))) =
      ('\n' :: (doc ++ ['\n'])) ++ ("```".toList) by simp]
    rw [endsWithL_append, if_pos rfl,
      show (3 : Nat) = ("```".toList).length from rfl, dropRightL_append]
    exact hdoc'

/-- C1: for every JSON document wrapped in a markdown code fence — opening
fence with or without the `json` tag, closing triple-backtick fence, any
surrounding whitespace — the normalizer returns exactly what parsing the
unwrapped document directly returns; in particular the fenced
`{"invoice_details":{"invoice_total":42.5},"line_items":[]}` normalizes to
that two-field structure. -/
theorem fenced_parse_eq_direct (tag : Bool) (ws1 ws2 doc : List Char)
    (h1 : ∀ c ∈ ws1, pyWs c = true) (h2 : ∀ c ∈ ws2, pyWs c = true)
    (hdoc : pyStrip doc = doc) :
    normalizeL (fenceWrap tag ws1 ws2 doc) = loadsL doc ∧
    normalizeRaw ("```json\n\x7b\"invoice_details\":\x7b\"invoice_total\":42.5\x7d,\"line_items\":[]\x7d\n```")
      = Except.ok (Json.obj
          [("invoice_details", Json.obj [("invoice_total", Json.num 42.5)]),
           ("line_items", Json.arr [])]) := by
  constructor
  · unfold normalizeL
    rw [stripFences_fenceWrap tag ws1 ws2 doc h1 h2 hdoc]
  · simp [normalizeRaw, normalizeL, stripFences, pyStrip, pyWs, startsWithL,
      endsWithL, dropRightL, loadsL, parseValue, expectLit, juLit_rue, juLit_alse, juLit_ull, parseElems, parseMembers,
      parseStringBody, skipWs, jsonWs, parseNumber, parseIntPart, spanDigits,
      digitsToNat, parseFracPart, parseExpPart, numValue, objFromPairs, insertKV,
      hexVal, unescapeChar]
    norm_num

/-- Witness for C1: the document `{"a": 1}` wrapped in a tagged fence with
surrounding whitespace normalizes exactly as the bare document parses. -/
theorem fenced_parse_eq_direct_witness :
    pyStrip ("\x7b\"a\": 1\x7d".toList) = ("\x7b\"a\": 1\x7d".toList) ∧
    normalizeL (fenceWrap true (" ".toList) ("\n".toList) ("\x7b\"a\": 1\x7d".toList)) =
      loadsL ("\x7b\"a\": 1\x7d".toList) := by
  have hdoc : pyStrip ("\x7b\"a\": 1\x7d".toList) = ("\x7b\"a\": 1\x7d".toList) := by decide
  exact ⟨hdoc, (fenced_parse_eq_direct true (" ".toList) ("\n".toList) _
    (by decide) (by decide) hdoc).1⟩

/-- Exhausted or zero input leaves the accumulator untouched. -/
theorem natToDigitsAux_zero : ∀ (f : Nat) (acc : List Char),
    natToDigitsAux f 0 acc = acc := by
  intro f acc
  cases f <;> rfl

/-- The digit accumulator appends to whatever it is given. -/
theorem natToDigitsAux_acc : ∀ (f n : Nat) (acc : List Char),
    natToDigitsAux f n acc = natToDigitsAux f n [] ++ acc := by
  intro f
  induction f with
  | zero => intro n acc; simp [natToDigitsAux]
  | succ f ih =>
    intro n acc
    match n with
    | 0 => simp [natToDigitsAux]
    | n + 1 =>
      rw [natToDigitsAux]
      · rw [natToDigitsAux]
        · rw [ih ((n + 1) / 10) (Char.ofNat (48 + (n + 1) % 10) :: acc),
            ih ((n + 1) / 10) [Char.ofNat (48 + (n + 1) % 10)]]
          simp
        · omega
      · omega

/-- Any two sufficient fuels print the same digits. -/
theorem natToDigitsAux_fuel : ∀ (n f1 f2 : Nat) (acc : List Char),
    n ≤ f1 → n ≤ f2 → natToDigitsAux f1 n acc = natToDigitsAux f2 n acc := by
  intro n
  induction n using Nat.strong_induction_on with
  | _ n ih =>
    intro f1 f2 acc h1 h2
    match n with
    | 0 => rw [natToDigitsAux_zero, natToDigitsAux_zero]
    | m + 1 =>
      match f1, f2 with
      | g1 + 1, g2 + 1 =>
        rw [natToDigitsAux]
        · rw [natToDigitsAux]
          · exact ih ((m + 1) / 10) (Nat.div_lt_self (by omega) (by omega)) g1 g2 _
              (by omega) (by omega)
          · omega
        · omega

/-- Peeling the last digit off the canonical print. -/
theorem natToDigits_step (n : Nat) (hn : 0 < n) :
    natToDigits n =
      (if n < 10 then [] else natToDigits (n / 10)) ++ [Char.ofNat (48 + n % 10)] := by
  unfold natToDigits
  rw [if_neg (by omega)]
  match n, hn with
  | m + 1, _ =>
    rw [natToDigitsAux]
    · rw [natToDigitsAux_acc]
      by_cases h10 : m + 1 < 10
      · rw [if_pos h10, show (m + 1) / 10 = 0 by omega, natToDigitsAux_zero]
      · rw [if_neg h10]
        have hlt : (m + 1) / 10 < m + 1 := Nat.div_lt_self (by omega) (by omega)
        rw [natToDigitsAux_fuel ((m + 1) / 10) m ((m + 1) / 10) [] (by omega) (le_refl _),
          if_neg (show ¬(m + 1) / 10 = 0 by omega)]
    · omega

/-- Code of the emitted digit character. -/
theorem digitChar_toNat (d : Nat) (h : d < 10) :
    (Char.ofNat (48 + d)).toNat = 48 + d := by
  have h10 : d = 0 ∨ d = 1 ∨ d = 2 ∨ d = 3 ∨ d = 4 ∨ d = 5 ∨ d = 6 ∨ d = 7 ∨
      d = 8 ∨ d = 9 := by omega
  rcases h10 with rfl | rfl | rfl | rfl | rfl | rfl | rfl | rfl | rfl | rfl <;> decide

/-- Appending one digit multiplies the value by ten and adds it. -/
theorem digitsToNat_append (ds : List Char) (c : Char) :
    digitsToNat (ds ++ [c]) = 10 * digitsToNat ds + (c.toNat - '0'.toNat) := by
  unfold digitsToNat
  rw [List.foldl_append]
  rfl

/-- Reading the canonical digits of `n` back gives `n`. -/
theorem digitsToNat_natToDigits : ∀ n : Nat, digitsToNat (natToDigits n) = n := by
  intro n
  induction n using Nat.strong_induction_on with
  | _ n ih =>
    by_cases hn : n = 0
    · subst hn; decide
    · rw [natToDigits_step n (by omega)]
      by_cases h10 : n < 10
      · rw [if_pos h10, List.nil_append,
          show [Char.ofNat (48 + n % 10)] = [] ++ [Char.ofNat (48 + n % 10)] from rfl,
          digitsToNat_append, digitChar_toNat _ (Nat.mod_lt _ (by omega))]
        show 10 * digitsToNat [] + (48 + n % 10 - '0'.toNat) = n
        have : digitsToNat [] = 0 := rfl
        rw [this]
        have : '0'.toNat = 48 := rfl
        omega
      · rw [if_neg h10, digitsToNat_append,
          ih (n / 10) (Nat.div_lt_self (by omega) (by omega)),
          digitChar_toNat _ (Nat.mod_lt _ (by omega))]
        have h48 : '0'.toNat = 48 := rfl
        have := Nat.div_add_mod n 10
        omega

/-- The canonical print is never empty. -/
theorem natToDigits_ne_nil (n : Nat) : natToDigits n ≠ [] := by
  by_cases hn : n = 0
  · subst hn; decide
  · rw [natToDigits_step n (by omega)]
    simp

/-- A positive number never prints with a leading zero. -/
theorem natToDigits_head_ne_zero : ∀ n : Nat, 0 < n →
    ∀ c cs, natToDigits n = c :: cs → c ≠ '0' := by
  intro n
  induction n using Nat.strong_induction_on with
  | _ n ih =>
    intro hn c cs hc
    rw [natToDigits_step n hn] at hc
    by_cases h10 : n < 10
    · rw [if_pos h10, List.nil_append] at hc
      have hceq : c = Char.ofNat (48 + n % 10) := by
        injection hc with h1 _
        exact h1.symm
      subst hceq
      have hmod : n % 10 = n := by omega
      rw [hmod]
      have h9 : n = 1 ∨ n = 2 ∨ n = 3 ∨ n = 4 ∨ n = 5 ∨ n = 6 ∨ n = 7 ∨ n = 8 ∨
          n = 9 := by omega
      rcases h9 with rfl | rfl | rfl | rfl | rfl | rfl | rfl | rfl | rfl <;> decide
    · rw [if_neg h10] at hc
      obtain ⟨d, ds, hd⟩ : ∃ d ds, natToDigits (n / 10) = d :: ds := by
        cases h : natToDigits (n / 10) with
        | nil => exact absurd h (natToDigits_ne_nil _)
        | cons d ds => exact ⟨d, ds, rfl⟩
      rw [hd, List.cons_append] at hc
      have hcd : c = d := by
        injection hc with h1 _
        exact h1.symm
      subst hcd
      exact ih (n / 10) (Nat.div_lt_self (by omega) (by omega))
        (Nat.div_pos (by omega) (by omega)) c ds hd

/-- The digit scanner consumes exactly a digit block when what follows does
not start with a digit. -/
theorem spanDigits_append (ds rest : List Char)
    (hds : ∀ c ∈ ds, c.isDigit = true)
    (hrest : ∀ c, rest.head? = some c → c.isDigit = false) :
    spanDigits (ds ++ rest) = (ds, rest) := by
  induction ds with
  | nil =>
    rw [List.nil_append]
    cases rest with
    | nil => rfl
    | cons c cs => simp [spanDigits, hrest c rfl]
  | cons d ds ih =>
    rw [List.cons_append, spanDigits]
    simp [hds d (List.mem_cons_self d ds),
      ih (fun c h => hds c (List.mem_cons_of_mem _ h))]

/-- Leading zeros do not change the numeric reading. -/
theorem digitsToNat_pad : ∀ (z : Nat) (ds : List Char),
    digitsToNat (List.replicate z '0' ++ ds) = digitsToNat ds := by
  intro z
  induction z with
  | zero => intro ds; rfl
  | succ z ih =>
    intro ds
    rw [List.replicate_succ, List.cons_append]
    show digitsToNat (List.replicate z '0' ++ ds) = digitsToNat ds
    exact ih ds

/-- A number below `10 ^ k` prints in at most `k` digits (for `k ≥ 1`). -/
theorem natToDigits_length_le : ∀ (k x : Nat), 1 ≤ k → x < 10 ^ k →
    (natToDigits x).length ≤ k := by
  intro k
  induction k with
  | zero => intro x h; omega
  | succ k ih =>
    intro x _ hx
    by_cases hx0 : x = 0
    · subst hx0; simp [natToDigits]
    · rw [natToDigits_step x (by omega)]
      by_cases h10 : x < 10
      · rw [if_pos h10]
        simp
      · rw [if_neg h10]
        simp only [List.length_append, List.length_cons, List.length_nil]
        have hk1 : 1 ≤ k := by
          rcases Nat.eq_zero_or_pos k with rfl | h
          · simp at hx; omega
          · exact h
        have hdiv : x / 10 < 10 ^ k := by
          rw [Nat.div_lt_iff_lt_mul (by omega)]
          calc x < 10 ^ (k + 1) := hx
          _ = 10 ^ k * 10 := by ring
        have := ih (x / 10) hk1 hdiv
        omega

/-- Every character of the zero-padded digit block is a digit. -/
theorem padLeftZeros_digits (k : Nat) (ds : List Char)
    (hds : ∀ c ∈ ds, c.isDigit = true) :
    ∀ c ∈ padLeftZeros k ds, c.isDigit = true := by
  intro c hc
  rcases List.mem_append.mp hc with h | h
  · rw [List.eq_of_mem_replicate h]; decide
  · exact hds c h

/-- Width of the padded digit block. -/
theorem padLeftZeros_length (k : Nat) (ds : List Char) (h : ds.length ≤ k) :
    (padLeftZeros k ds).length = k := by
  simp [padLeftZeros]
  omega

/-- The integer-part scanner reads back a canonically printed natural. -/
theorem parseIntPart_digits (n : Nat) (rest : List Char)
    (hrest : ∀ c, rest.head? = some c → c.isDigit = false) :
    parseIntPart (natToDigits n ++ rest) = some (n, rest) := by
  by_cases hn : n = 0
  · subst hn
    show parseIntPart ('0' :: rest) = some (0, rest)
    simp [parseIntPart]
  · obtain ⟨c, cs, hc⟩ : ∃ c cs, natToDigits n = c :: cs := by
      cases h : natToDigits n with
      | nil => exact absurd h (natToDigits_ne_nil _)
      | cons c cs => exact ⟨c, cs, rfl⟩
    have hcd : c.isDigit = true :=
      natToDigits_digits n c (by rw [hc]; exact List.mem_cons_self c cs)
    have hc0 : c ≠ '0' := natToDigits_head_ne_zero n (by omega) c cs hc
    rw [hc, List.cons_append, parseIntPart, if_neg hc0, if_pos hcd]
    have hspan : spanDigits ((c :: cs) ++ rest) = (c :: cs, rest) :=
      spanDigits_append (c :: cs) rest (by rw [← hc]; exact natToDigits_digits n) hrest
    rw [List.cons_append] at hspan
    simp only [hspan]
    rw [← hc, digitsToNat_natToDigits]

/-- No fraction part is consumed when the next character is not a dot. -/
theorem parseFracPart_none (rest : List Char)
    (h : ∀ c, rest.head? = some c → c ≠ '.') :
    parseFracPart rest = ((0, 0), rest) := by
  cases rest with
  | nil => rfl
  | cons c cs => simp [parseFracPart, h c rfl]

/-- No exponent part is consumed when the next character is not `e`/`E`. -/
theorem parseExpPart_none (rest : List Char)
    (h : ∀ c, rest.head? = some c → c ≠ 'e' ∧ c ≠ 'E') :
    parseExpPart rest = ((false, 0), rest) := by
  cases rest with
  | nil => rfl
  | cons c cs =>
    have := h c rfl
    simp [parseExpPart, this.1, this.2]

/-- The casts of the absolute numerator and denominator recover a
non-negative rational. -/
theorem natAbs_div_den_of_nonneg (q : ℚ) (h : ¬q.num < 0) :
    ((q.num.natAbs : ℚ) / (q.den : ℚ)) = q := by
  set a := q.num.natAbs with ha
  have h1 : q.num = (a : ℤ) := by omega
  conv_rhs => rw [← Rat.num_div_den q]
  rw [h1]
  push_cast
  rfl

/-- The casts of the absolute numerator and denominator recover a negative
rational after negation. -/
theorem natAbs_div_den_of_neg (q : ℚ) (h : q.num < 0) :
    -((q.num.natAbs : ℚ) / (q.den : ℚ)) = q := by
  set a := q.num.natAbs with ha
  have h1 : q.num = -(a : ℤ) := by omega
  conv_rhs => rw [← Rat.num_div_den q]
  rw [h1]
  push_cast
  ring

/-- The number scanner reads back exactly what `renderNum` printed, for any
value with a finite decimal expansion, whenever the following character
cannot extend a number literal. -/
theorem parseNumber_renderNum (q : ℚ) (rest : List Char) (hwf : wfNum q)
    (hrest : notNumStart rest) :
    parseNumber (renderNum q ++ rest) = some (q, rest) := by
  have hr : ∀ c, rest.head? = some c →
      c.isDigit = false ∧ c ≠ '.' ∧ c ≠ 'e' ∧ c ≠ 'E' := by
    intro c hc
    cases rest with
    | nil => simp at hc
    | cons c0 cs0 =>
      simp only [List.head?_cons, Option.some.injEq] at hc
      unfold notNumStart at hrest
      push_neg at hrest
      rw [hc] at hrest
      exact ⟨Bool.eq_false_iff.mpr hrest.1, hrest.2.1, hrest.2.2.1, hrest.2.2.2⟩
  have hrd : ∀ c, rest.head? = some c → c.isDigit = false :=
    fun c hc => (hr c hc).1
  unfold wfNum at hwf
  unfold renderNum
  dsimp only
  set d := q.den with hdd
  set k := padic 2 d + padic 5 d with hkk
  set m := 10 ^ k / d with hmdef
  set n := q.num.natAbs * m with hndef
  have hd0 : 0 < d := q.den_pos
  have hdvd : d ∣ 10 ^ k := hwf
  have hmd : m * d = 10 ^ k := Nat.div_mul_cancel hdvd
  have hm0 : 0 < m := Nat.div_pos (Nat.le_of_dvd (by positivity) hdvd) hd0
  by_cases hk : k = 0
  · have hd1 : d = 1 := by
      rw [hk] at hdvd
      simpa using hdvd
    have hn1 : n = q.num.natAbs := by
      rw [hndef, hmdef, hk, hd1]
      simp
    rw [if_pos hk]
    by_cases hneg : q.num < 0
    · rw [if_pos hneg]
      rw [show (['-'] ++ natToDigits n) ++ rest = '-' :: (natToDigits n ++ rest) by simp]
      rw [parseNumber, if_pos rfl, parseIntPart_digits n rest hrd]
      dsimp only
      rw [parseFracPart_none rest (fun c hc => (hr c hc).2.1)]
      dsimp only
      rw [parseExpPart_none rest (fun c hc => ⟨(hr c hc).2.2.1, (hr c hc).2.2.2⟩)]
      dsimp only
      refine congrArg (fun x => some (x, rest)) ?_
      have hden1 : ((q.den : ℕ) : ℚ) = 1 := by rw [← hdd, hd1]; norm_num
      have hq := natAbs_div_den_of_neg q hneg
      rw [hden1, div_one] at hq
      simp [numValue, hn1, hq]
    · rw [if_neg hneg]
      rw [show ([] ++ natToDigits n) ++ rest = natToDigits n ++ rest by simp]
      obtain ⟨c, cs, hc⟩ : ∃ c cs, natToDigits n = c :: cs := by
        cases h : natToDigits n with
        | nil => exact absurd h (natToDigits_ne_nil _)
        | cons c cs => exact ⟨c, cs, rfl⟩
      have hcd : c.isDigit = true :=
        natToDigits_digits n c (by rw [hc]; exact List.mem_cons_self c cs)
      have hcm : c ≠ '-' := by
        intro he; subst he; exact absurd hcd (by decide)
      rw [hc, List.cons_append, parseNumber, if_neg hcm, ← List.cons_append, ← hc,
        parseIntPart_digits n rest hrd]
      dsimp only
      rw [parseFracPart_none rest (fun c hc => (hr c hc).2.1)]
      dsimp only
      rw [parseExpPart_none rest (fun c hc => ⟨(hr c hc).2.2.1, (hr c hc).2.2.2⟩)]
      dsimp only
      refine congrArg (fun x => some (x, rest)) ?_
      have hden1 : ((q.den : ℕ) : ℚ) = 1 := by rw [← hdd, hd1]; norm_num
      have hq := natAbs_div_den_of_nonneg q hneg
      rw [hden1, div_one] at hq
      simp [numValue, hn1, hq]
  · rw [if_neg hk]
    set w := n / 10 ^ k with hwdef
    set r := n % 10 ^ k with hrdef
    have hk1 : 1 ≤ k := by omega
    have hrk : r < 10 ^ k := Nat.mod_lt _ (by positivity)
    have hpadlen : (padLeftZeros k (natToDigits r)).length = k :=
      padLeftZeros_length k _ (natToDigits_length_le k r hk1 hrk)
    have hpaddig : ∀ c ∈ padLeftZeros k (natToDigits r), c.isDigit = true :=
      padLeftZeros_digits k _ (natToDigits_digits r)
    obtain ⟨p0, ps, hp⟩ : ∃ p0 ps, padLeftZeros k (natToDigits r) = p0 :: ps := by
      cases h : padLeftZeros k (natToDigits r) with
      | nil => rw [h] at hpadlen; simp at hpadlen; omega
      | cons p0 ps => exact ⟨p0, ps, rfl⟩
    have hval : digitsToNat (padLeftZeros k (natToDigits r)) = r := by
      unfold padLeftZeros
      rw [digitsToNat_pad, digitsToNat_natToDigits]
    have hfrac : parseFracPart ('.' :: (padLeftZeros k (natToDigits r) ++ rest)) =
        ((r, k), rest) := by
      rw [parseFracPart, if_pos rfl,
        spanDigits_append _ rest hpaddig hrd, hp]
      dsimp only
      rw [← hp, hval, hpadlen]
    have hintrest : ∀ c, ('.' :: (padLeftZeros k (natToDigits r) ++ rest)).head? = some c →
        c.isDigit = false := by
      intro c hc
      simp only [List.head?_cons, Option.some.injEq] at hc
      subst hc
      decide
    have hnum : ((w : ℚ) + (r : ℚ) / (10 : ℚ) ^ k) = (q.num.natAbs : ℚ) / (q.den : ℚ) := by
      have h10k : ((10 : ℚ)) ^ k = ((10 ^ k : ℕ) : ℚ) := by push_cast; ring
      have hqk : ((10 : ℚ)) ^ k ≠ 0 := by positivity
      have hsplit : (w : ℚ) + (r : ℚ) / (10 : ℚ) ^ k =
          ((w : ℚ) * (10 : ℚ) ^ k + (r : ℚ)) / (10 : ℚ) ^ k := by
        field_simp
      have hwr : (w * 10 ^ k + r : ℕ) = n := by
        rw [hwdef, hrdef, Nat.mul_comm]
        exact Nat.div_add_mod n (10 ^ k)
      have hcast : ((w : ℚ) * (10 : ℚ) ^ k + (r : ℚ)) = ((n : ℕ) : ℚ) := by
        rw [h10k, ← hwr]
        push_cast
        ring
      rw [hsplit, hcast, h10k, ← hmd, hndef]
      have hmq : ((m : ℕ) : ℚ) ≠ 0 := Nat.cast_ne_zero.mpr (by omega)
      have hdq : ((d : ℕ) : ℚ) ≠ 0 := Nat.cast_ne_zero.mpr (by omega)
      rw [← hdd]
      push_cast
      field_simp
      ring
    by_cases hneg : q.num < 0
    · rw [if_pos hneg]
      simp only [List.append_assoc, List.cons_append, List.nil_append]
      rw [parseNumber, if_pos rfl, parseIntPart_digits w _ hintrest]
      dsimp only
      rw [hfrac]
      dsimp only
      rw [parseExpPart_none rest (fun c hc => ⟨(hr c hc).2.2.1, (hr c hc).2.2.2⟩)]
      dsimp only
      refine congrArg (fun x => some (x, rest)) ?_
      have hq := natAbs_div_den_of_neg q hneg
      rw [← hnum] at hq
      simpa [numValue, hk] using hq
    · rw [if_neg hneg]
      simp only [List.append_assoc, List.cons_append, List.nil_append]
      obtain ⟨c, cs, hc⟩ : ∃ c cs, natToDigits w = c :: cs := by
        cases h : natToDigits w with
        | nil => exact absurd h (natToDigits_ne_nil _)
        | cons c cs => exact ⟨c, cs, rfl⟩
      have hcd : c.isDigit = true :=
        natToDigits_digits w c (by rw [hc]; exact List.mem_cons_self c cs)
      have hcm : c ≠ '-' := by
        intro he; subst he; exact absurd hcd (by decide)
      rw [hc, List.cons_append, parseNumber, if_neg hcm, ← List.cons_append, ← hc,
        parseIntPart_digits w _ hintrest]
      dsimp only
      rw [hfrac]
      dsimp only
      rw [parseExpPart_none rest (fun c hc => ⟨(hr c hc).2.2.1, (hr c hc).2.2.2⟩)]
      dsimp only
      refine congrArg (fun x => some (x, rest)) ?_
      have hq := natAbs_div_den_of_nonneg q hneg
      rw [← hnum] at hq
      simpa [numValue, hk] using hq

/-- Reading back a printed hexadecimal digit. -/
theorem hexVal_hexDigitChar (x : Nat) (h : x < 16) :
    hexVal (hexDigitChar x) = some x := by
  have h16 : x = 0 ∨ x = 1 ∨ x = 2 ∨ x = 3 ∨ x = 4 ∨ x = 5 ∨ x = 6 ∨ x = 7 ∨
      x = 8 ∨ x = 9 ∨ x = 10 ∨ x = 11 ∨ x = 12 ∨ x = 13 ∨ x = 14 ∨ x = 15 := by
    omega
  rcases h16 with rfl | rfl | rfl | rfl | rfl | rfl | rfl | rfl | rfl | rfl | rfl |
    rfl | rfl | rfl | rfl | rfl <;> decide

/-- The string scanner decodes exactly what the serializer escaped, leaving
the input after the closing quote. -/
theorem parseStringBody_escaped : ∀ (cs rest : List Char),
    parseStringBody ((cs.map escapeChar).flatten ++ ('"' :: rest)) = some (cs, rest) := by
  intro cs
  induction cs with
  | nil =>
    intro rest
    simp only [List.map_nil, List.flatten_nil, List.nil_append]
    rw [parseStringBody.eq_def]
    dsimp only
    rw [if_pos rfl]
  | cons c cs ih =>
    intro rest
    simp only [List.map_cons, List.flatten_cons, List.append_assoc]
    by_cases h1 : c = '"'
    · subst h1
      simp [escapeChar, parseStringBody, unescapeChar, ih rest]
    · by_cases h2 : c = '\\'
      · subst h2
        simp [escapeChar, parseStringBody, unescapeChar, ih rest]
      · by_cases h3 : c = '\n'
        · subst h3
          simp [escapeChar, parseStringBody, unescapeChar, ih rest]
        · by_cases h4 : c = '\t'
          · subst h4
            simp [escapeChar, parseStringBody, unescapeChar, ih rest]
          · by_cases h5 : c = '\r'
            · subst h5
              simp [escapeChar, parseStringBody, unescapeChar, ih rest]
            · by_cases h6 : c = '\x08'
              · subst h6
                simp [escapeChar, parseStringBody, unescapeChar, ih rest]
              · by_cases h7 : c = '\x0c'
                · subst h7
                  simp [escapeChar, parseStringBody, unescapeChar, ih rest]
                · by_cases h8 : c.toNat < 0x20
                  · have hesc : escapeChar c = ['\\', 'u', '0', '0',
                        hexDigitChar (c.toNat / 16), hexDigitChar (c.toNat % 16)] := by
                      simp [escapeChar, h1, h2, h3, h4, h5, h6, h7, h8]
                    have hdiv : c.toNat / 16 < 16 := by omega
                    have hmod : c.toNat % 16 < 16 := by omega
                    rw [hesc]
                    simp only [List.cons_append, List.nil_append]
                    simp [parseStringBody, (by decide : hexVal ('0') = some 0),
                      hexVal_hexDigitChar _ hdiv, hexVal_hexDigitChar _ hmod, ih rest]
                    have h16 : c.toNat / 16 * 16 + c.toNat % 16 = c.toNat := by omega
                    simp [h16, Char.ofNat_toNat]
                  · have hesc : escapeChar c = [c] := by
                      simp [escapeChar, h1, h2, h3, h4, h5, h6, h7, h8]
                    rw [hesc]
                    simp only [List.cons_append, List.nil_append, List.singleton_append]
                    rw [parseStringBody.eq_def]
                    dsimp only
                    rw [if_neg h1, if_neg h2, if_neg h8, ih rest]
                    rfl

/-- Inserting a fresh key appends it. -/
theorem insertKV_not_mem : ∀ (acc : List (String × Json)) (k : String) (v : Json),
    k ∉ acc.map Prod.fst → insertKV acc k v = acc ++ [(k, v)] := by
  intro acc
  induction acc with
  | nil => intro k v _; rfl
  | cons p rest ih =>
    intro k v h
    obtain ⟨k', v'⟩ := p
    simp only [List.map_cons, List.mem_cons] at h
    push_neg at h
    rw [insertKV, if_neg (fun he => h.1 he.symm), List.cons_append, ih k v h.2]

/-- Folding `dict` insertion over key-distinct pairs just appends them. -/
theorem objFromPairs_aux : ∀ (fs acc : List (String × Json)),
    ((acc ++ fs).map Prod.fst).Nodup →
    fs.foldl (fun acc p => insertKV acc p.1 p.2) acc = acc ++ fs := by
  intro fs
  induction fs with
  | nil => intro acc _; simp
  | cons p rest ih =>
    intro acc h
    obtain ⟨k, v⟩ := p
    rw [List.foldl_cons]
    have hk : k ∉ acc.map Prod.fst := by
      intro hin
      rw [List.map_append, List.nodup_append] at h
      exact h.2.2 hin (by simp)
    rw [insertKV_not_mem acc k v hk]
    have := ih (acc ++ [(k, v)]) (by simpa [List.append_assoc] using h)
    simpa [List.append_assoc] using this

/-- `dict(pairs)` is the identity on key-distinct pair lists. -/
theorem objFromPairs_nodup (fs : List (String × Json))
    (h : (fs.map Prod.fst).Nodup) : objFromPairs fs = fs := by
  simpa using objFromPairs_aux fs [] (by simpa using h)

/-- Whitespace before a token is skipped. -/
theorem skipWs_append_ws : ∀ (w z : List Char), (∀ c ∈ w, jsonWs c = true) →
    skipWs (w ++ z) = skipWs z := by
  intro w
  induction w with
  | nil => intro z _; rfl
  | cons c cs ih =>
    intro z h
    rw [List.cons_append, skipWs, if_pos (h c (List.mem_cons_self c cs))]
    exact ih z (fun c hc => h c (List.mem_cons_of_mem _ hc))

/-- A non-whitespace head stops the skip. -/
theorem skipWs_not_ws (c : Char) (z : List Char) (h : jsonWs c = false) :
    skipWs (c :: z) = c :: z := by
  rw [skipWs, h]
  simp

/-- Indentation is whitespace. -/
theorem indentChars_ws (d : Nat) : ∀ c ∈ indentChars d, jsonWs c = true := by
  intro c hc
  rw [List.eq_of_mem_replicate hc]
  decide

/-- A whitespace character cannot extend a number literal. -/
theorem jsonWs_notNumStart (c : Char) (h : jsonWs c = true) (x : List Char) :
    notNumStart (c :: x) := by
  simp only [jsonWs, Bool.or_eq_true, decide_eq_true_eq] at h
  rcases h with ((rfl | rfl) | rfl) | rfl <;> simp [notNumStart]

/-- Passing to the closing bracket keeps the no-number-start property. -/
theorem wsList_notNumStart (w : List Char) (hw : ∀ c ∈ w, jsonWs c = true)
    (x : List Char) (hx : notNumStart x) : notNumStart (w ++ x) := by
  cases w with
  | nil => simpa using hx
  | cons c cs =>
    rw [List.cons_append]
    exact jsonWs_notNumStart c (hw c (List.mem_cons_self c cs)) _

/-- Every value occupies at least one fuel unit. -/
theorem sizeJ_pos (v : Json) : 1 ≤ sizeJ v := by
  cases v <;> simp [sizeJ] <;> omega

/-- A printed number starts with a minus sign or a digit. -/
theorem renderNum_head (q : ℚ) :
    ∃ c cs, renderNum q = c :: cs ∧ (c = '-' ∨ c.isDigit = true) := by
  unfold renderNum
  dsimp only
  by_cases hk : padic 2 q.den + padic 5 q.den = 0
  · rw [if_pos hk]
    by_cases hneg : q.num < 0
    · rw [if_pos hneg]
      exact ⟨'-', _, rfl, Or.inl rfl⟩
    · rw [if_neg hneg, List.nil_append]
      obtain ⟨c, cs, hc⟩ : ∃ c cs,
          natToDigits (q.num.natAbs * (10 ^ (padic 2 q.den + padic 5 q.den) / q.den)) =
            c :: cs := by
        cases h : natToDigits _ with
        | nil => exact absurd h (natToDigits_ne_nil _)
        | cons c cs => exact ⟨c, cs, rfl⟩
      exact ⟨c, cs, hc, Or.inr (natToDigits_digits _ c (by
        rw [hc]; exact List.mem_cons_self c cs))⟩
  · rw [if_neg hk]
    by_cases hneg : q.num < 0
    · rw [if_pos hneg]
      exact ⟨'-', _, rfl, Or.inl rfl⟩
    · rw [if_neg hneg, List.nil_append]
      obtain ⟨c, cs, hc⟩ : ∃ c cs,
          natToDigits (q.num.natAbs * (10 ^ (padic 2 q.den + padic 5 q.den) / q.den) /
            10 ^ (padic 2 q.den + padic 5 q.den)) = c :: cs := by
        cases h : natToDigits _ with
        | nil => exact absurd h (natToDigits_ne_nil _)
        | cons c cs => exact ⟨c, cs, rfl⟩
      refine ⟨c, cs ++ '.' :: padLeftZeros (padic 2 q.den + padic 5 q.den)
        (natToDigits (q.num.natAbs * (10 ^ (padic 2 q.den + padic 5 q.den) / q.den) %
          10 ^ (padic 2 q.den + padic 5 q.den))), ?_, Or.inr
        (natToDigits_digits _ c (by rw [hc]; exact List.mem_cons_self c cs))⟩
      rw [hc, List.cons_append]

/-- A digit character is none of the scanner's special dispatch characters
and is not whitespace. -/
theorem isDigit_not_special (c : Char) (h : c.isDigit = true) :
    jsonWs c = false ∧ c ≠ '{' ∧ c ≠ '[' ∧ c ≠ '"' ∧ c ≠ 't' ∧ c ≠ 'f' ∧
      c ≠ 'n' ∧ c ≠ ']' ∧ c ≠ '}' := by
  refine ⟨?_, ?_, ?_, ?_, ?_, ?_, ?_, ?_, ?_⟩
  · cases hb : jsonWs c
    · rfl
    · simp only [jsonWs, Bool.or_eq_true, decide_eq_true_eq] at hb
      rcases hb with ((rfl | rfl) | rfl) | rfl <;> exact absurd h (by decide)
  all_goals (intro he; subst he; exact absurd h (by decide))

/-- Every rendered value starts with a non-whitespace character that is not
a closing bracket. -/
theorem render_head (v : Json) (d : Nat) :
    ∃ c cs, render v d = c :: cs ∧ jsonWs c = false ∧ c ≠ ']' ∧ c ≠ '}' := by
  cases v with
  | null => exact ⟨'n', ['u', 'l', 'l'], by simp [render], by decide, by decide, by decide⟩
  | bool b =>
    cases b
    · exact ⟨'f', ['a', 'l', 's', 'e'], by simp [render], by decide, by decide, by decide⟩
    · exact ⟨'t', ['r', 'u', 'e'], by simp [render], by decide, by decide, by decide⟩
  | num q =>
    obtain ⟨c, cs, hc, hcase⟩ := renderNum_head q
    refine ⟨c, cs, by simpa [render] using hc, ?_, ?_, ?_⟩
    · rcases hcase with rfl | hd
      · decide
      · exact (isDigit_not_special c hd).1
    · rcases hcase with rfl | hd
      · decide
      · exact (isDigit_not_special c hd).2.2.2.2.2.2.2.1
    · rcases hcase with rfl | hd
      · decide
      · exact (isDigit_not_special c hd).2.2.2.2.2.2.2.2
  | str s =>
    exact ⟨'"', (s.toList.map escapeChar).flatten ++ ['"'],
      by simp [render, renderString], by decide, by decide, by decide⟩
  | arr xs =>
    cases xs with
    | nil => exact ⟨'[', [']'], by simp [render], by decide, by decide, by decide⟩
    | cons x xs =>
      exact ⟨'[', renderItems x xs (d + 1) ++ '\n' :: (indentChars d ++ [']']),
        by simp [render], by decide, by decide, by decide⟩
  | obj fs =>
    cases fs with
    | nil => exact ⟨'{', ['}'], by simp [render], by decide, by decide, by decide⟩
    | cons m ms =>
      exact ⟨'{', renderMembers m ms (d + 1) ++ '\n' :: (indentChars d ++ ['}']),
        by simp [render], by decide, by decide, by decide⟩

/-- Skipping whitespace at the start of a rendered item list lands exactly
on the first element (singleton case). -/
theorem skipWs_renderItems_single (x : Json) (d : Nat) (z : List Char) :
    skipWs (renderItems x [] d ++ z) = render x d ++ z := by
  rw [show renderItems x [] d = '\n' :: (indentChars d ++ render x d) by simp [renderItems]]
  rw [List.cons_append, skipWs, if_pos (by decide), List.append_assoc,
    skipWs_append_ws _ _ (indentChars_ws d)]
  obtain ⟨c, cs, hc, hws, _, _⟩ := render_head x d
  rw [hc, List.cons_append, skipWs_not_ws c _ hws]

/-- Skipping whitespace at the start of a rendered item list lands exactly
on the first element (cons case). -/
theorem skipWs_renderItems_cons (x y : Json) (ys : List Json) (d : Nat) (z : List Char) :
    skipWs (renderItems x (y :: ys) d ++ z) =
      render x d ++ (',' :: (renderItems y ys d ++ z)) := by
  rw [show renderItems x (y :: ys) d =
    '\n' :: (indentChars d ++ (render x d ++ ',' :: renderItems y ys d)) by simp [renderItems]]
  rw [List.cons_append, skipWs, if_pos (by decide), List.append_assoc,
    skipWs_append_ws _ _ (indentChars_ws d)]
  obtain ⟨c, cs, hc, hws, _, _⟩ := render_head x d
  rw [hc, List.cons_append, List.cons_append, skipWs_not_ws c _ hws]
  simp

/-- Skipping whitespace at the start of a rendered member list lands on the
opening quote of the first key (singleton case). -/
theorem skipWs_renderMembers_single (k : String) (v : Json) (d : Nat) (z : List Char) :
    skipWs (renderMembers (k, v) [] d ++ z) =
      '"' :: ((k.toList.map escapeChar).flatten ++
        ('"' :: (':' :: ' ' :: (render v d ++ z)))) := by
  rw [show renderMembers (k, v) [] d =
    '\n' :: (indentChars d ++ (renderString k ++ ':' :: ' ' :: render v d)) by
      simp [renderMembers]]
  rw [List.cons_append, skipWs, if_pos (by decide), List.append_assoc,
    skipWs_append_ws _ _ (indentChars_ws d)]
  rw [show renderString k = '"' :: ((k.toList.map escapeChar).flatten ++ ['"']) by
    simp [renderString]]
  simp only [List.cons_append, List.append_assoc]
  rw [skipWs_not_ws '"' _ (by decide)]
  simp

/-- Skipping whitespace at the start of a rendered member list lands on the
opening quote of the first key (cons case). -/
theorem skipWs_renderMembers_cons (k : String) (v : Json) (m : String × Json)
    (ms : List (String × Json)) (d : Nat) (z : List Char) :
    skipWs (renderMembers (k, v) (m :: ms) d ++ z) =
      '"' :: ((k.toList.map escapeChar).flatten ++
        ('"' :: (':' :: ' ' :: (render v d ++ (',' :: (renderMembers m ms d ++ z)))))) := by
  rw [show renderMembers (k, v) (m :: ms) d =
    '\n' :: (indentChars d ++ (renderString k ++ ':' :: ' ' :: render v d ++
      ',' :: renderMembers m ms d)) by simp [renderMembers]]
  rw [List.cons_append, skipWs, if_pos (by decide), List.append_assoc,
    skipWs_append_ws _ _ (indentChars_ws d)]
  rw [show renderString k = '"' :: ((k.toList.map escapeChar).flatten ++ ['"']) by
    simp [renderString]]
  simp only [List.cons_append, List.append_assoc]
  rw [skipWs_not_ws '"' _ (by decide)]
  simp

/-- Skipping whitespace lands on the first element's head, whatever the
rest of the item list is. -/
theorem skipWs_renderItems_head (x : Json) (xs : List Json) (d : Nat) (z : List Char) :
    ∃ t, skipWs (renderItems x xs d ++ z) = render x d ++ t := by
  cases xs with
  | nil => exact ⟨z, skipWs_renderItems_single x d z⟩
  | cons y ys =>
    exact ⟨',' :: (renderItems y ys d ++ z), skipWs_renderItems_cons x y ys d z⟩

/-- Skipping whitespace lands on the first key's opening quote, whatever
the rest of the member list is. -/
theorem skipWs_renderMembers_head (k : String) (v : Json) (ms : List (String × Json))
    (d : Nat) (z : List Char) :
    ∃ t, skipWs (renderMembers (k, v) ms d ++ z) =
      '"' :: ((k.toList.map escapeChar).flatten ++
        ('"' :: (':' :: ' ' :: (render v d ++ t)))) := by
  cases ms with
  | nil => exact ⟨z, skipWs_renderMembers_single k v d z⟩
  | cons m ms =>
    exact ⟨',' :: (renderMembers m ms d ++ z), skipWs_renderMembers_cons k v m ms d z⟩


/-- The scanner reads back exactly what the serializer printed: with enough
fuel, a rendered well-formed value parses to itself leaving the trailing
input untouched, and rendered element/member lists parse back up to their
closing bracket. -/
theorem parse_render : ∀ f : Nat,
    (∀ (v : Json) (d : Nat) (rest : List Char), sizeJ v ≤ f → wfJson v →
       notNumStart rest → parseValue f (render v d ++ rest) = some (v, rest)) ∧
    (∀ (x : Json) (xs : List Json) (d : Nat) (w rest : List Char),
       1 + sizeItems (x :: xs) ≤ f → wfItems (x :: xs) → (∀ c ∈ w, jsonWs c = true) →
       parseElems f (skipWs (renderItems x xs d ++ (w ++ (']' :: rest)))) =
         some (x :: xs, rest)) ∧
    (∀ (k : String) (v : Json) (ms : List (String × Json)) (d : Nat) (w rest : List Char),
       1 + sizeFields ((k, v) :: ms) ≤ f → wfFields ((k, v) :: ms) →
       (∀ c ∈ w, jsonWs c = true) →
       parseMembers f (skipWs (renderMembers (k, v) ms d ++ (w ++ ('}' :: rest)))) =
         some ((k, v) :: ms, rest)) := by
  intro f
  induction f using Nat.strong_induction_on with
  | _ f ih =>
    refine ⟨?_, ?_, ?_⟩
    · intro v d rest hsz hwf hrest
      have hf1 : 1 ≤ f := le_trans (sizeJ_pos v) hsz
      obtain ⟨g, rfl⟩ : ∃ g, f = g + 1 := ⟨f - 1, by omega⟩
      cases v with
      | null =>
        rw [show render Json.null d = ['n', 'u', 'l', 'l'] by simp [render]]
        simp [parseValue, expectLit, juLit_rue, juLit_alse, juLit_ull]
      | bool b =>
        cases b
        · rw [show render (Json.bool false) d = ['f', 'a', 'l', 's', 'e'] by simp [render]]
          simp [parseValue, expectLit, juLit_rue, juLit_alse, juLit_ull]
        · rw [show render (Json.bool true) d = ['t', 'r', 'u', 'e'] by simp [render]]
          simp [parseValue, expectLit, juLit_rue, juLit_alse, juLit_ull]
      | num q =>
        have hwq : wfNum q := by simpa [wfJson] using hwf
        obtain ⟨c, cs, hc, hcase⟩ := renderNum_head q
        have hfacts : c ≠ '{' ∧ c ≠ '[' ∧ c ≠ '"' ∧ c ≠ 't' ∧ c ≠ 'f' ∧ c ≠ 'n' := by
          rcases hcase with rfl | hd
          · exact ⟨by decide, by decide, by decide, by decide, by decide, by decide⟩
          · have hs := isDigit_not_special c hd
            exact ⟨hs.2.1, hs.2.2.1, hs.2.2.2.1, hs.2.2.2.2.1, hs.2.2.2.2.2.1,
              hs.2.2.2.2.2.2.1⟩
        rw [show render (Json.num q) d = renderNum q by simp [render], hc,
          List.cons_append, parseValue.eq_def]
        dsimp only
        rw [if_neg hfacts.1, if_neg hfacts.2.1, if_neg hfacts.2.2.1,
          if_neg hfacts.2.2.2.1, if_neg hfacts.2.2.2.2.1, if_neg hfacts.2.2.2.2.2,
          ← List.cons_append, ← hc, parseNumber_renderNum q rest hwq hrest]
        rfl
      | str s =>
        rw [show render (Json.str s) d =
          '"' :: ((s.toList.map escapeChar).flatten ++ ['"']) by
            simp [render, renderString]]
        rw [List.cons_append, parseValue.eq_def]
        dsimp only
        rw [if_neg (by decide), if_neg (by decide), if_pos rfl, List.append_assoc,
          show (['"'] ++ rest : List Char) = '"' :: rest from rfl,
          parseStringBody_escaped s.toList rest]
        rfl
      | arr xs =>
        cases xs with
        | nil =>
          rw [show render (Json.arr []) d = ['[', ']'] by simp [render]]
          simp [parseValue, expectLit, juLit_rue, juLit_alse, juLit_ull, skipWs, jsonWs]
        | cons x xs =>
          have hwf' : wfItems (x :: xs) := by simpa [wfJson] using hwf
          have hsz' : 1 + sizeItems (x :: xs) ≤ g := by
            simp only [sizeJ] at hsz
            omega
          rw [show render (Json.arr (x :: xs)) d =
            '[' :: (renderItems x xs (d + 1) ++ '\n' :: (indentChars d ++ [']'])) by
              simp [render]]
          rw [List.cons_append, parseValue.eq_def]
          dsimp only
          rw [if_neg (by decide), if_pos rfl]
          rw [show (renderItems x xs (d + 1) ++ '\n' :: (indentChars d ++ [']'])) ++ rest =
            renderItems x xs (d + 1) ++ (('\n' :: indentChars d) ++ (']' :: rest)) by simp]
          obtain ⟨t, ht⟩ :=
            skipWs_renderItems_head x xs (d + 1) (('\n' :: indentChars d) ++ (']' :: rest))
          rw [ht]
          obtain ⟨c, cs, hc, hws, hne1, hne2⟩ := render_head x (d + 1)
          rw [hc, List.cons_append]
          split
          · rename_i r2 heq
            injection heq with h1 _
            exact absurd h1 hne1
          · rw [← List.cons_append, ← hc, ← ht,
              (ih g (by omega)).2.1 x xs (d + 1) ('\n' :: indentChars d) rest hsz' hwf'
                (by
                  intro c0 hc0
                  rcases List.mem_cons.mp hc0 with rfl | hc2
                  · decide
                  · exact indentChars_ws d c0 hc2)]
            rfl
      | obj fs =>
        cases fs with
        | nil =>
          rw [show render (Json.obj []) d = ['{', '}'] by simp [render]]
          simp [parseValue, expectLit, juLit_rue, juLit_alse, juLit_ull, skipWs, jsonWs]
        | cons m ms =>
          obtain ⟨k, v⟩ := m
          have hwf' : ((((k, v) :: ms).map Prod.fst).Nodup) ∧ wfFields ((k, v) :: ms) := by
            simpa [wfJson] using hwf
          have hsz' : 1 + sizeFields ((k, v) :: ms) ≤ g := by
            simp only [sizeJ] at hsz
            omega
          rw [show render (Json.obj ((k, v) :: ms)) d =
            '{' :: (renderMembers (k, v) ms (d + 1) ++ '\n' :: (indentChars d ++ ['}'])) by
              simp [render]]
          rw [List.cons_append, parseValue.eq_def]
          dsimp only
          rw [if_pos rfl]
          rw [show (renderMembers (k, v) ms (d + 1) ++ '\n' :: (indentChars d ++ ['}'])) ++ rest =
            renderMembers (k, v) ms (d + 1) ++ (('\n' :: indentChars d) ++ ('}' :: rest)) by
              simp]
          obtain ⟨t, ht⟩ :=
            skipWs_renderMembers_head k v ms (d + 1) (('\n' :: indentChars d) ++ ('}' :: rest))
          rw [ht]
          split
          · rename_i r2 heq
            injection heq with h1 _
            exact absurd h1 (by decide)
          · rw [← ht,
              (ih g (by omega)).2.2 k v ms (d + 1) ('\n' :: indentChars d) rest hsz' hwf'.2
                (by
                  intro c0 hc0
                  rcases List.mem_cons.mp hc0 with rfl | hc2
                  · decide
                  · exact indentChars_ws d c0 hc2)]
            simp [objFromPairs_nodup _ hwf'.1]
    · intro x xs d w rest hsz hwf hws
      have hf1 : 1 ≤ f := by omega
      obtain ⟨g, rfl⟩ : ∃ g, f = g + 1 := ⟨f - 1, by omega⟩
      obtain ⟨hx, hxs⟩ : wfJson x ∧ wfItems xs := by simpa [wfItems] using hwf
      cases xs with
      | nil =>
        rw [skipWs_renderItems_single x d (w ++ (']' :: rest))]
        rw [parseElems.eq_def]
        dsimp only
        rw [(ih g (by omega)).1 x d (w ++ (']' :: rest))
          (by simp only [sizeItems] at hsz; omega) hx
          (wsList_notNumStart w hws _ (by simp [notNumStart]))]
        dsimp only
        rw [skipWs_append_ws w _ hws, skipWs_not_ws ']' _ (by decide)]
        simp
      | cons y ys =>
        rw [skipWs_renderItems_cons x y ys d (w ++ (']' :: rest))]
        rw [parseElems.eq_def]
        dsimp only
        rw [(ih g (by omega)).1 x d
          (',' :: (renderItems y ys d ++ (w ++ (']' :: rest))))
          (by simp only [sizeItems] at hsz; have := sizeJ_pos y; omega) hx
          (by simp [notNumStart])]
        dsimp only
        rw [skipWs_not_ws ',' _ (by decide)]
        have hrec := (ih g (by omega)).2.1 y ys d w rest
          (by simp only [sizeItems] at hsz ⊢; have := sizeJ_pos x; omega)
          (by simpa [wfItems] using hxs) hws
        simp [hrec]
    · intro k v ms d w rest hsz hwf hws
      have hf1 : 1 ≤ f := by omega
      obtain ⟨g, rfl⟩ : ∃ g, f = g + 1 := ⟨f - 1, by omega⟩
      obtain ⟨hv, hms⟩ : wfJson v ∧ wfFields ms := by simpa [wfFields] using hwf
      have hval : ∀ z : List Char, notNumStart z →
          parseValue g (skipWs (' ' :: (render v d ++ z))) = some (v, z) := by
        intro z hz
        rw [skipWs, if_pos (by decide)]
        obtain ⟨c, cs, hc, hcws, _, _⟩ := render_head v d
        rw [hc, List.cons_append, skipWs_not_ws c _ hcws, ← List.cons_append, ← hc]
        exact (ih g (by omega)).1 v d z
          (by simp only [sizeFields] at hsz; omega) hv hz
      cases ms with
      | nil =>
        rw [skipWs_renderMembers_single k v d (w ++ ('}' :: rest))]
        simp only [parseMembers,
          parseStringBody_escaped k.toList
            (':' :: ' ' :: (render v d ++ (w ++ ('}' :: rest))))]
        rw [skipWs_not_ws ':' _ (by decide)]
        have := hval (w ++ ('}' :: rest)) (wsList_notNumStart w hws _ (by simp [notNumStart]))
        have hskip : skipWs (w ++ ('}' :: rest)) = '}' :: rest := by
          rw [skipWs_append_ws w _ hws, skipWs_not_ws '}' _ (by decide)]
        simp [this, hskip]
      | cons m ms2 =>
        rw [skipWs_renderMembers_cons k v m ms2 d (w ++ ('}' :: rest))]
        simp only [parseMembers,
          parseStringBody_escaped k.toList
            (':' :: ' ' :: (render v d ++ (',' :: (renderMembers m ms2 d ++ (w ++ ('}' :: rest))))))]
        rw [skipWs_not_ws ':' _ (by decide)]
        obtain ⟨k2, v2⟩ := m
        have hv1 := hval (',' :: (renderMembers (k2, v2) ms2 d ++ (w ++ ('}' :: rest))))
          (by simp [notNumStart])
        have hskip2 : skipWs (',' :: (renderMembers (k2, v2) ms2 d ++ (w ++ ('}' :: rest)))) =
            ',' :: (renderMembers (k2, v2) ms2 d ++ (w ++ ('}' :: rest))) :=
          skipWs_not_ws ',' _ (by decide)
        have hrec := (ih g (by omega)).2.2 k2 v2 ms2 d w rest
          (by simp only [sizeFields] at hsz ⊢; have := sizeJ_pos v; omega)
          (by simpa [wfFields] using hms) hws
        simp [hv1, hskip2, hrec]

/-- The fuel measure is at most twice the rendered length: every unit of
`sizeJ` pays for at least half a character of output, so the fuel budget
`2 * length + 4` of `loadsL` always suffices on serializer output. -/
theorem sizeJ_le_two_mul_render : ∀ n : Nat,
    (∀ (v : Json) (d : Nat), sizeJ v ≤ n → sizeJ v ≤ 2 * (render v d).length) ∧
    (∀ (x : Json) (xs : List Json) (d : Nat), 1 + sizeItems (x :: xs) ≤ n →
       1 + sizeItems (x :: xs) ≤ 2 * (renderItems x xs d).length) ∧
    (∀ (k : String) (v : Json) (ms : List (String × Json)) (d : Nat),
       1 + sizeFields ((k, v) :: ms) ≤ n →
       1 + sizeFields ((k, v) :: ms) ≤ 2 * (renderMembers (k, v) ms d).length) := by
  intro n
  induction n using Nat.strong_induction_on with
  | _ n ih =>
    refine ⟨?_, ?_, ?_⟩
    · intro v d hsz
      cases v with
      | null => simp [render, sizeJ]
      | bool b => cases b <;> simp [render, sizeJ]
      | num q =>
        obtain ⟨c, cs, hc, _⟩ := renderNum_head q
        rw [show render (Json.num q) d = renderNum q by simp [render], hc]
        simp only [sizeJ, List.length_cons]
        omega
      | str s =>
        simp only [render, renderString, sizeJ, List.length_cons, List.length_append]
        omega
      | arr xs =>
        cases xs with
        | nil => simp [render, sizeJ, sizeItems]
        | cons x xs =>
          have hlt : 1 + sizeItems (x :: xs) < n := by
            simp only [sizeJ] at hsz
            omega
          have hb := (ih _ hlt).2.1 x xs (d + 1) (le_refl _)
          simp only [render, sizeJ, List.length_cons, List.length_append,
            indentChars, List.length_replicate] at *
          omega
      | obj fs =>
        cases fs with
        | nil => simp [render, sizeJ, sizeFields]
        | cons m ms =>
          obtain ⟨k, v⟩ := m
          have hlt : 1 + sizeFields ((k, v) :: ms) < n := by
            simp only [sizeJ] at hsz
            omega
          have hb := (ih _ hlt).2.2 k v ms (d + 1) (le_refl _)
          simp only [render, sizeJ, List.length_cons, List.length_append,
            indentChars, List.length_replicate] at *
          omega
    · intro x xs d hsz
      have hxlt : sizeJ x < n := by
        simp only [sizeItems] at hsz
        omega
      have ha := (ih _ hxlt).1 x d (le_refl _)
      cases xs with
      | nil =>
        simp only [renderItems, sizeItems, List.length_cons, List.length_append,
          indentChars, List.length_replicate] at *
        omega
      | cons y ys =>
        have hylt : 1 + sizeItems (y :: ys) < n := by
          simp only [sizeItems] at hsz ⊢
          have := sizeJ_pos x
          omega
        have hb := (ih _ hylt).2.1 y ys d (le_refl _)
        simp only [renderItems, sizeItems, List.length_cons, List.length_append,
          indentChars, List.length_replicate] at *
        omega
    · intro k v ms d hsz
      have hvlt : sizeJ v < n := by
        simp only [sizeFields] at hsz
        omega
      have ha := (ih _ hvlt).1 v d (le_refl _)
      cases ms with
      | nil =>
        simp only [renderMembers, sizeFields, renderString, List.length_cons,
          List.length_append, indentChars, List.length_replicate] at *
        omega
      | cons m ms2 =>
        obtain ⟨k2, v2⟩ := m
        have hmlt : 1 + sizeFields ((k2, v2) :: ms2) < n := by
          simp only [sizeFields] at hsz ⊢
          have := sizeJ_pos v
          omega
        have hb := (ih _ hmlt).2.2 k2 v2 ms2 d (le_refl _)
        simp only [renderMembers, sizeFields, renderString, List.length_cons,
          List.length_append, indentChars, List.length_replicate] at *
        omega

/-- `json.loads` inverts `json.dump`: parsing the exact character stream the
serializer wrote for a well-formed value recovers that value. -/
theorem loadsL_dumps (v : Json) (h : wfJson v) : loadsL (dumps v) = Except.ok v := by
  unfold loadsL dumps
  obtain ⟨c, cs, hc, hws, _, _⟩ := render_head v 0
  have hskip : skipWs (render v 0) = render v 0 := by
    rw [hc]
    exact skipWs_not_ws c cs hws
  have hsz : sizeJ v ≤ 2 * (render v 0).length + 4 := by
    have := (sizeJ_le_two_mul_render (sizeJ v)).1 v 0 (le_refl _)
    omega
  have hp := (parse_render (2 * (render v 0).length + 4)).1 v 0 [] hsz h (by simp [notNumStart])
  rw [List.append_nil] at hp
  rw [hskip, hp]
  simp [skipWs]

/-- C3: saving an extraction result with `save_extraction_result` and loading
the written file back (tab 2's `json.load`) reproduces a structure deeply
equal to the original, for any JSON-representable value — one with
finite-decimal numbers and distinct keys in every object, exactly the values
`json.loads` produces — whether the filename was supplied or derived. -/
theorem save_load_roundtrip (data : Json) (t : Timestamp) (fn : Option (List Char))
    (file : SavedFile) (hwf : wfJson data)
    (hsave : save_extraction_result data t fn = some file) :
    loadSaved file = Except.ok data := by
  have hcontent : file.content = dumps data := by
    cases fn with
    | some f =>
      simp only [save_extraction_result, Option.some.injEq] at hsave
      rw [← hsave]
    | none =>
      simp only [save_extraction_result, Option.map_eq_some'] at hsave
      obtain ⟨f, _, hfile⟩ := hsave
      rw [← hfile]
  rw [loadSaved, hcontent]
  exact loadsL_dumps data hwf

/-- The roundtrip at a concrete invoice-shaped result saved under an explicit
name. -/
theorem save_load_roundtrip_witness :
    save_extraction_result
        (Json.obj [("invoice_details", Json.obj [("invoice_number", Json.str "A1")]),
          ("line_items", Json.arr [])])
        ⟨2024, 1, 2, 3, 4, 5⟩ (some ['r']) =
      some { name := ['r'],
             content := dumps (Json.obj [("invoice_details",
                 Json.obj [("invoice_number", Json.str "A1")]),
               ("line_items", Json.arr [])]) } ∧
    loadSaved
        { name := ['r'],
          content := dumps (Json.obj [("invoice_details",
              Json.obj [("invoice_number", Json.str "A1")]),
            ("line_items", Json.arr [])]) } =
      Except.ok (Json.obj [("invoice_details",
          Json.obj [("invoice_number", Json.str "A1")]),
        ("line_items", Json.arr [])]) :=
  ⟨rfl,
    save_load_roundtrip _ ⟨2024, 1, 2, 3, 4, 5⟩ (some ['r']) _
      (by simp [wfJson, wfFields, wfItems]) rfl⟩
